import Mathlib

/-!
Shallow embedding of the chess-engine core of this repository
(`src/implementations/rust` and `src/rust`), together with proofs about it.

Conventions used throughout:
* Rust `usize`/`u64`/`u32` values are embedded as `Nat`; wrapping arithmetic
  is written with an explicit `% 2^32` / `% 2^64` where the Rust code can wrap.
* Rust `i32` arithmetic on square offsets is embedded as `Int`.
* Code that can panic (`expect`, out-of-range indexing, `usize` underflow)
  is embedded as an `Option`-returning function; `none` is the panic.
* Rust `Vec` push/pop stacks are embedded as Lean lists with push = cons.
-/

namespace Chess

abbrev Square := Nat

/-- `PieceType` from `src/implementations/rust/src/types.rs`. -/
inductive PieceType where
  | King
  | Queen
  | Rook
  | Bishop
  | Knight
  | Pawn
deriving DecidableEq

/-- `Color` from `src/implementations/rust/src/types.rs`. -/
inductive Color where
  | White
  | Black
deriving DecidableEq

/-- `Color::opposite`. -/
def Color.opposite : Color → Color
  | .White => .Black
  | .Black => .White

/-- `Piece` from `src/implementations/rust/src/types.rs`. -/
structure Piece where
  piece_type : PieceType
  color : Color
deriving DecidableEq

/-- `Move` from `src/implementations/rust/src/types.rs`.  The Rust fields
`from`/`to` are named `from_sq`/`to_sq` here because `from` is a Lean keyword. -/
structure Move where
  from_sq : Nat
  to_sq : Nat
  piece : PieceType
  captured : Option PieceType
  promotion : Option PieceType
  is_castling : Bool
  is_en_passant : Bool
deriving DecidableEq

/-- `Move::new`. -/
def Move.new (f t : Nat) (p : PieceType) : Move :=
  { from_sq := f, to_sq := t, piece := p, captured := none, promotion := none,
    is_castling := false, is_en_passant := false }

/-- `Move::with_capture`. -/
def Move.with_capture (m : Move) (c : PieceType) : Move := { m with captured := some c }

/-- `Move::with_promotion`. -/
def Move.with_promotion (m : Move) (p : PieceType) : Move := { m with promotion := some p }

/-- `Move::with_castling`. -/
def Move.with_castling (m : Move) : Move := { m with is_castling := true }

/-- `Move::with_en_passant`. -/
def Move.with_en_passant (m : Move) : Move := { m with is_en_passant := true }

/-- `CastlingRights` from `src/implementations/rust/src/types.rs`. -/
structure CastlingRights where
  white_kingside : Bool
  white_queenside : Bool
  black_kingside : Bool
  black_queenside : Bool
deriving DecidableEq

/-- `CastlingRights::new`. -/
def CastlingRights.new : CastlingRights :=
  { white_kingside := true, white_queenside := true,
    black_kingside := true, black_queenside := true }

/-- `CastlingRights::none`. -/
def CastlingRights.noRights : CastlingRights :=
  { white_kingside := false, white_queenside := false,
    black_kingside := false, black_queenside := false }

/-- The per-move snapshot pushed by `Board::make_move`
(`src/implementations/rust/src/board.rs`, the `IrreversibleState` literal). -/
structure IrreversibleState where
  castling_rights : CastlingRights
  en_passant_target : Option Nat
  halfmove_clock : Nat
  zobrist_hash : Nat
deriving DecidableEq

/-- The engine `Position` (spec section 3).  This is the union of the fields
used by `src/implementations/rust/src/board.rs` (which reads and writes
`board`, `turn`, `castling_rights`, `en_passant_target`, `halfmove_clock`,
`fullmove_number`, `zobrist_hash`, `move_history`, `irreversible_history`,
`position_history`); the `GameState` declaration in `types.rs` is an earlier
snapshot that lacks the history stacks `board.rs` requires. -/
structure GameState where
  board : List (Option Piece)
  turn : Color
  castling_rights : CastlingRights
  en_passant_target : Option Nat
  halfmove_clock : Nat
  fullmove_number : Nat
  move_history : List Move
  irreversible_history : List IrreversibleState
  position_history : List Nat
  zobrist_hash : Nat
deriving DecidableEq

/-- `Board::get_piece` (board indexing; all indices used by the engine are
below 64, where `List.getD` agrees with Rust array indexing). -/
def getPiece (s : GameState) (sq : Nat) : Option Piece :=
  s.board.getD sq none

/-- `Board::set_piece`. -/
def setPiece (s : GameState) (sq : Nat) (p : Option Piece) : GameState :=
  { s with board := s.board.set sq p }

/-- Modelled from the spec (section 4.2): the Zobrist key table used by
`Board::make_move` via `zobrist::get_keys()`.  That module is not among the
source files (the `zobrist.rs` present belongs to an earlier snapshot with a
different key layout); the spec prescribes `pieces[12][64]`, one key per
castling flag (`castling[4]`, XORed independently), `ep_file[8]` and a single
`side_to_move` key.  The concrete pseudorandom values are irrelevant to every
claim proved below, so the table is a parameter. -/
structure ZKeys where
  pieces : Nat → Nat → Nat
  castling : Nat → Nat
  en_passant : Nat → Nat
  side_to_move : Nat

/-- Modelled from the spec (section 4.2): `zobrist::piece_to_index`, packing
(type, color) into 0..12.  The exact packing does not matter for any claim;
only that `make_move` and `compute_hash` use the same packing. -/
def pieceToIndex (p : Piece) : Nat :=
  let t : Nat :=
    match p.piece_type with
    | .Pawn => 0
    | .Knight => 1
    | .Bishop => 2
    | .Rook => 3
    | .Queen => 4
    | .King => 5
  let c : Nat := match p.color with | .White => 0 | .Black => 1
  t * 2 + c

/-- `if b { hash ^= k }` as a value: the term XORed into a hash. -/
def flagTerm (b : Bool) (k : Nat) : Nat := if b then k else 0

/-- `if let Some(sq) = ep { hash ^= keys.en_passant[sq % 8] }` as a value. -/
def epTerm (keys : ZKeys) : Option Nat → Nat
  | some sq => keys.en_passant (sq % 8)
  | none => 0

/-- The four conditional castling-flag XORs of `make_move` (`board.rs` lines
146–149, repeated at 167–170) as one value. -/
def castlingFlagsHash (keys : ZKeys) (cr : CastlingRights) : Nat :=
  flagTerm cr.white_kingside (keys.castling 0)
    ^^^ flagTerm cr.white_queenside (keys.castling 1)
    ^^^ flagTerm cr.black_kingside (keys.castling 2)
    ^^^ flagTerm cr.black_queenside (keys.castling 3)

/-- The castling-rights update of `make_move` (`board.rs` lines 151–165):
a king move drops both rights of its color, and any touch of a corner
square drops the corresponding right. -/
def updatedCastlingRights (m : Move) (piece : Piece) (cr0 : CastlingRights) :
    CastlingRights :=
  let cr :=
    if piece.piece_type = .King then
      if piece.color = .White then
        { cr0 with white_kingside := false, white_queenside := false }
      else
        { cr0 with black_kingside := false, black_queenside := false }
    else cr0
  let cr := if m.from_sq = 0 ∨ m.to_sq = 0 then { cr with white_queenside := false } else cr
  let cr := if m.from_sq = 7 ∨ m.to_sq = 7 then { cr with white_kingside := false } else cr
  let cr := if m.from_sq = 56 ∨ m.to_sq = 56 then { cr with black_queenside := false } else cr
  if m.from_sq = 63 ∨ m.to_sq = 63 then { cr with black_kingside := false } else cr

/-- The square of the pawn an en-passant capture removes
(`board.rs` lines 100–104): behind `to` from the mover's point of view. -/
def epCapSq (m : Move) (p : Piece) : Nat :=
  if p.color = .White then m.to_sq - 8 else m.to_sq + 8

/-- The piece placed on the destination square (`board.rs` lines 118–127):
the promotion piece when promoting, otherwise the mover. -/
def destPiece (m : Move) (piece : Piece) : Piece :=
  match m.promotion with
  | some promotion => ⟨promotion, piece.color⟩
  | none => piece

/-- The en-passant target after the move (`board.rs` lines 177–183): the
crossed square on a two-square pawn push, otherwise cleared. -/
def newEpTarget (m : Move) (piece : Piece) : Option Nat :=
  if piece.piece_type = .Pawn ∧ ((m.to_sq : Int) - (m.from_sq : Int)).natAbs = 16 then
    some ((m.from_sq + m.to_sq) / 2)
  else none

/-- The fullmove counter after the move (`board.rs` lines 189–191). -/
def newFullmove (piece : Piece) (f : Nat) : Nat :=
  if piece.color = .Black then (f + 1) % 2 ^ 32 else f

/-- The rook's source corner for a castling move (`board.rs` lines 131–135):
h-file corner when the king lands on the g-file square, else the a-file
corner. -/
def castleRookFrom (to_sq : Nat) (c : Color) : Nat :=
  let rank := if c = .White then 0 else 7
  if to_sq = rank * 8 + 6 then rank * 8 + 7 else rank * 8

/-- The rook's destination for a castling move (`board.rs` lines 131–135). -/
def castleRookTo (to_sq : Nat) (c : Color) : Nat :=
  let rank := if c = .White then 0 else 7
  if to_sq = rank * 8 + 6 then rank * 8 + 5 else rank * 8 + 3

/-- `Board::make_move` from `src/implementations/rust/src/board.rs` (lines
77–195), step by step in source order.  `none` is the Rust panic: the
`expect("No piece at source square")`, or the `usize` underflow in
`chess_move.to - 8` on a white en-passant capture with `to < 8`.
`halfmove_clock`/`fullmove_number` are `u32`, hence the `% 2^32`. -/
def makeMove (keys : ZKeys) (m : Move) (s0 : GameState) : Option GameState := do
  let piece ← getPiece s0 m.from_sq
  -- Save current state for undo
  let s := { s0 with
    irreversible_history :=
      { castling_rights := s0.castling_rights,
        en_passant_target := s0.en_passant_target,
        halfmove_clock := s0.halfmove_clock,
        zobrist_hash := s0.zobrist_hash } :: s0.irreversible_history,
    position_history := s0.zobrist_hash :: s0.position_history }
  -- 1. Remove moving piece from source
  let hash := s.zobrist_hash ^^^ keys.pieces (pieceToIndex piece) m.from_sq
  -- 2. Handle capture (and the halfmove clock).  On an en-passant capture
  -- the removal square is `epCapSq`; a white capture with `to < 8`
  -- underflows in Rust and a removal square off the board would make the
  -- Rust key/board indexing panic, hence the two guards.
  let (hash, s) ←
    match m.captured with
    | some captured_type =>
      let captured_piece : Piece := ⟨captured_type, piece.color.opposite⟩
      if m.is_en_passant then
        if piece.color = .White ∧ m.to_sq < 8 then
          none
        else if 64 ≤ epCapSq m piece then
          none
        else
          some (hash ^^^ keys.pieces (pieceToIndex captured_piece) (epCapSq m piece),
                { setPiece s (epCapSq m piece) none with halfmove_clock := 0 })
      else
        some (hash ^^^ keys.pieces (pieceToIndex captured_piece) m.to_sq,
              { s with halfmove_clock := 0 })
    | none =>
      if piece.piece_type = .Pawn then
        some (hash, { s with halfmove_clock := 0 })
      else
        some (hash, { s with halfmove_clock := (s.halfmove_clock + 1) % 2 ^ 32 })
  -- 3. Place piece at destination (promotion piece when promoting)
  let hash := hash ^^^ keys.pieces (pieceToIndex (destPiece m piece)) m.to_sq
  let s := setPiece s m.to_sq (some (destPiece m piece))
  let s := setPiece s m.from_sq none
  -- 4. Handle castling rook
  let (hash, s) :=
    if m.is_castling then
      match getPiece s (castleRookFrom m.to_sq piece.color) with
      | some rook =>
        (hash ^^^ keys.pieces (pieceToIndex rook) (castleRookFrom m.to_sq piece.color)
              ^^^ keys.pieces (pieceToIndex rook) (castleRookTo m.to_sq piece.color),
         setPiece (setPiece s (castleRookTo m.to_sq piece.color) (some rook))
           (castleRookFrom m.to_sq piece.color) none)
      | none => (hash, s)
    else (hash, s)
  -- 5. XOR out the old castling-rights flags, update, XOR in the new ones
  let hash := hash ^^^ castlingFlagsHash keys s.castling_rights
  let cr := updatedCastlingRights m piece s.castling_rights
  let s := { s with castling_rights := cr }
  let hash := hash ^^^ castlingFlagsHash keys cr
  -- 6. XOR out the old en-passant file, set the new target, XOR it in
  let hash := hash ^^^ epTerm keys s.en_passant_target
  let hash := hash ^^^ epTerm keys (newEpTarget m piece)
  let s := { s with en_passant_target := newEpTarget m piece }
  -- 7. Update side to move and fullmove
  let hash := hash ^^^ keys.side_to_move
  let s := { s with turn := piece.color.opposite }
  let s := { s with fullmove_number := newFullmove piece s.fullmove_number }
  some { s with zobrist_hash := hash, move_history := m :: s.move_history }

/-- `Board::undo_move` from `src/implementations/rust/src/board.rs` (lines
197–262).  The outer `none` is a panic (`expect("No irreversible history")`,
`expect("No piece at destination")`, or the `usize` underflow on a white
en-passant undo with `to < 8`); the inner `Option Move` is the Rust return
value.  An empty `move_history` returns `some (none, s)`: `Vec::pop` on the
empty vector yields `None` without mutating anything, and `?` propagates it.
The `u32` decrement of `fullmove_number` is embedded as wrapping. -/
def undoMove (s1 : GameState) : Option (Option Move × GameState) :=
  match s1.move_history with
  | [] => some (none, s1)
  | m :: rest =>
    match s1.irreversible_history with
    | [] => none
    | old_state :: irest =>
      let s := { s1 with
        move_history := rest,
        irreversible_history := irest,
        position_history := s1.position_history.tail }
      -- Get the piece that was moved
      match getPiece s m.to_sq with
      | none => none
      | some moved_piece =>
        -- Restore irreversible state
        let s := { s with
          castling_rights := old_state.castling_rights,
          en_passant_target := old_state.en_passant_target,
          halfmove_clock := old_state.halfmove_clock,
          zobrist_hash := old_state.zobrist_hash }
        -- Restore the original piece (handle promotion)
        let original_piece :=
          if m.promotion.isSome then (⟨.Pawn, moved_piece.color⟩ : Piece) else moved_piece
        -- Move piece back
        let s := setPiece s m.from_sq (some original_piece)
        -- Restore captured piece or clear destination.  The en-passant
        -- removal square is `epCapSq m moved_piece`; the guards model the
        -- Rust `usize` underflow / board-index panics.
        let s? : Option GameState :=
          match m.captured with
          | some captured =>
            let captured_piece : Piece := ⟨captured, moved_piece.color.opposite⟩
            if m.is_en_passant then
              if moved_piece.color = .White ∧ m.to_sq < 8 then
                none
              else if 64 ≤ epCapSq m moved_piece then
                none
              else
                some (setPiece (setPiece s (epCapSq m moved_piece) (some captured_piece))
                  m.to_sq none)
            else
              some (setPiece s m.to_sq (some captured_piece))
          | none => some (setPiece s m.to_sq none)
        match s? with
        | none => none
        | some s =>
          -- Handle castling rook: the rook walks back, so its source here is
          -- `castleRookTo` and its destination `castleRookFrom`.
          let s :=
            if m.is_castling then
              match getPiece s (castleRookTo m.to_sq moved_piece.color) with
              | some rook =>
                setPiece (setPiece s (castleRookFrom m.to_sq moved_piece.color) (some rook))
                  (castleRookTo m.to_sq moved_piece.color) none
              | none => s
            else s
          -- Restore turn and fullmove number
          let s :=
            if moved_piece.color = .Black then
              { s with fullmove_number := (s.fullmove_number + (2 ^ 32 - 1)) % 2 ^ 32 }
            else s
          some (some m, { s with turn := moved_piece.color })

/-- The board contribution to `compute_hash`: XOR of every present piece's
key over the 64 squares. -/
def boardHash (keys : ZKeys) (s : GameState) : Nat :=
  (List.range 64).foldl (fun h sq =>
    match getPiece s sq with
    | some p => h ^^^ keys.pieces (pieceToIndex p) sq
    | none => h) 0

/-- Modelled from the spec (section 4.2): `keys.compute_hash(&state)` as used
by `Board::new` — XOR of every present piece's key, each active castling
flag's key (the same per-flag keys `make_move` uses at `board.rs` lines
146–149 / 167–170), the ep file's key when `ep_target` is set, and
`side_to_move` when Black is to move. -/
def computeHash (keys : ZKeys) (s : GameState) : Nat :=
  boardHash keys s
    ^^^ castlingFlagsHash keys s.castling_rights
    ^^^ epTerm keys s.en_passant_target
    ^^^ (if s.turn = .Black then keys.side_to_move else 0)

/-- The square contents of `GameState::new` (`types.rs` lines 193–238). -/
def startSquare (sq : Nat) : Option Piece :=
  if sq = 0 ∨ sq = 7 then some ⟨.Rook, .White⟩
  else if sq = 1 ∨ sq = 6 then some ⟨.Knight, .White⟩
  else if sq = 2 ∨ sq = 5 then some ⟨.Bishop, .White⟩
  else if sq = 3 then some ⟨.Queen, .White⟩
  else if sq = 4 then some ⟨.King, .White⟩
  else if 8 ≤ sq ∧ sq < 16 then some ⟨.Pawn, .White⟩
  else if 48 ≤ sq ∧ sq < 56 then some ⟨.Pawn, .Black⟩
  else if sq = 56 ∨ sq = 63 then some ⟨.Rook, .Black⟩
  else if sq = 57 ∨ sq = 62 then some ⟨.Knight, .Black⟩
  else if sq = 58 ∨ sq = 61 then some ⟨.Bishop, .Black⟩
  else if sq = 59 then some ⟨.Queen, .Black⟩
  else if sq = 60 then some ⟨.King, .Black⟩
  else none

/-- `GameState::new` (`types.rs`): the starting position with `hash = 0`. -/
def GameState.new : GameState :=
  { board := (List.range 64).map startSquare,
    turn := .White,
    castling_rights := CastlingRights.new,
    en_passant_target := none,
    halfmove_clock := 0,
    fullmove_number := 1,
    move_history := [],
    irreversible_history := [],
    position_history := [],
    zobrist_hash := 0 }

/-- `Board::new`: the starting position with its hash computed. -/
def boardNew (keys : ZKeys) : GameState :=
  { GameState.new with zobrist_hash := computeHash keys GameState.new }

/-- `interpolate` from `src/implementations/rust/src/eval/tapered.rs`.
Rust `i32` division truncates toward zero, hence `Int.tdiv`.  (The caller
`eval/mod.rs` clamps `phase` to 0..24 and feeds centipawn sums, far from any
`i32` overflow, so wrapping is not modelled.) -/
def interpolate (mg_score eg_score phase : Int) : Int :=
  Int.tdiv (mg_score * phase + eg_score * (256 - phase * 10 - 16)) 256

/-- `BoundType` from `src/implementations/rust/src/transposition_table.rs`.
Its source doc comments: `LowerBound`: "beta cutoff / fail-high, actual score
is >= stored score"; `UpperBound`: "alpha cutoff / fail-low, actual score is
<= stored score". -/
inductive BoundType where
  | Exact
  | LowerBound
  | UpperBound
deriving DecidableEq

/-- `TTEntry` from `transposition_table.rs` (`u64` key, `u8` depth/age,
`i32` score, `u16`-encoded move). -/
structure TTEntry where
  key : Nat
  depth : Nat
  score : Int
  bound : BoundType
  best_move : Option Nat
  age : Nat
deriving DecidableEq

/-- `TTEntry::empty`. -/
def TTEntry.empty : TTEntry :=
  { key := 0, depth := 0, score := 0, bound := .Exact, best_move := none, age := 0 }

/-- `TTEntry::is_valid` (`transposition_table.rs` lines 50–53). -/
def TTEntry.is_valid (e : TTEntry) : Bool := e.key ≠ 0

/-- `TranspositionTable` from `transposition_table.rs`: a `Vec` of entries
whose length `size` is a power of two. -/
structure TranspositionTable where
  entries : List TTEntry
  age : Nat
  size : Nat
deriving DecidableEq

/-- `TranspositionTable::index`: `(key as usize) & (size - 1)`. -/
def ttIndex (t : TranspositionTable) (key : Nat) : Nat :=
  key &&& (t.size - 1)

/-- `TranspositionTable::probe` (lines 91–100). -/
def ttProbe (t : TranspositionTable) (key : Nat) : Option TTEntry :=
  let entry := t.entries.getD (ttIndex t key) TTEntry.empty
  if entry.is_valid ∧ entry.key = key then some entry else none

/-- `TranspositionTable::store` (lines 104–130): replace iff the slot is
empty, its age differs from the current age, or the new depth is ≥ the
stored depth. -/
def ttStore (t : TranspositionTable) (key : Nat) (depth : Nat) (score : Int)
    (bound : BoundType) (best_move : Option Nat) : TranspositionTable :=
  let idx := ttIndex t key
  let old_entry := t.entries.getD idx TTEntry.empty
  let should_replace :=
    old_entry.is_valid = false ∨ old_entry.age ≠ t.age ∨ old_entry.depth ≤ depth
  if should_replace then
    let new_entry : TTEntry :=
      { key := key, depth := depth, score := score, bound := bound,
        best_move := best_move, age := t.age }
    { t with entries := t.entries.set idx new_entry }
  else t

/-- `encode_move` from `transposition_table.rs`: `from | (to << 6)`. -/
def encodeMove (f t : Nat) : Nat := f ||| (t <<< 6)

/-- `decode_move` from `transposition_table.rs`. -/
def decodeMove (encoded : Nat) : Nat × Nat :=
  (encoded &&& 0x3F, (encoded >>> 6) &&& 0x3F)

/-- The move loop of the maximizing arm of `AI::minimax`
(`src/implementations/rust/src/ai.rs` lines 128–149), with the value each
recursive call returns supplied alongside its move.  State:
`(alpha, max_eval, best_move)`; `beta` is never reassigned in this arm.
Returns `(max_eval, best_move)`.  `max_eval` starts at `i32::MIN`. -/
def maxArmLoop (beta : Int) : List (Move × Int) → Int → Int → Option Nat → Int × Option Nat
  | [], _, max_eval, best => (max_eval, best)
  | (m, evaluation) :: rest, alpha, max_eval, best =>
    let (max_eval, best) :=
      if max_eval < evaluation then (evaluation, some (encodeMove m.from_sq m.to_sq))
      else (max_eval, best)
    let alpha := max alpha evaluation
    if beta ≤ alpha then (max_eval, best)
    else maxArmLoop beta rest alpha max_eval best

/-- The maximizing arm of `AI::minimax` (`ai.rs` lines 128–161): run the move
loop, then classify the bound against `original_alpha` (saved at function
entry, before the TT probe possibly raised `alpha`) and `beta`.  Returns
`(max_eval, best_move, stored bound)`. -/
def maxArm (children : List (Move × Int)) (original_alpha alpha beta : Int) :
    Int × Option Nat × BoundType :=
  let (max_eval, best) := maxArmLoop beta children alpha (-(2 ^ 31)) none
  let bound :=
    if max_eval ≤ original_alpha then BoundType.UpperBound
    else if beta ≤ max_eval then BoundType.LowerBound
    else BoundType.Exact
  (max_eval, best, bound)

/-- The move loop of the minimizing arm of `AI::minimax` (`ai.rs` lines
162–183).  State: `(beta, min_eval, best_move)`; `alpha` is never reassigned
in this arm.  Returns `(min_eval, final beta, best_move)` — the
classification at lines 186–192 reads the mutated `beta`.  `min_eval` starts
at `i32::MAX`. -/
def minArmLoop (alpha : Int) : List (Move × Int) → Int → Int → Option Nat →
    Int × Int × Option Nat
  | [], beta, min_eval, best => (min_eval, beta, best)
  | (m, evaluation) :: rest, beta, min_eval, best =>
    let (min_eval, best) :=
      if evaluation < min_eval then (evaluation, some (encodeMove m.from_sq m.to_sq))
      else (min_eval, best)
    let beta := min beta evaluation
    if beta ≤ alpha then (min_eval, beta, best)
    else minArmLoop alpha rest beta min_eval best

/-- The minimizing arm of `AI::minimax` (`ai.rs` lines 162–196): run the move
loop, then classify — the source compares `min_eval ≤ alpha → LowerBound`,
`min_eval ≥ beta → UpperBound`, else `Exact` (lines 186–192).  In this arm
`alpha` is exactly the value the node was entered with. -/
def minArm (children : List (Move × Int)) (alpha beta : Int) :
    Int × Option Nat × BoundType :=
  let (min_eval, beta', best) := minArmLoop alpha children beta (2 ^ 31 - 1) none
  let bound :=
    if min_eval ≤ alpha then BoundType.LowerBound
    else if beta' ≤ min_eval then BoundType.UpperBound
    else BoundType.Exact
  (min_eval, best, bound)

namespace ImplMG

/-- `MoveGenerator::generate_moves` from
`src/implementations/rust/src/move_generator.rs` (lines 11–15): the
implementation in that crate is a stub that pushes a single dummy move. -/
def generate_moves (_s : GameState) (_c : Color) : List Move :=
  [Move.new 0 8 .Pawn]

/-- `MoveGenerator::get_legal_moves` from
`src/implementations/rust/src/move_generator.rs` (lines 352–354): the
implementation in that crate is a stub returning an empty `Vec`. -/
def get_legal_moves (_s : GameState) (_c : Color) : List Move :=
  []

end ImplMG

mutual

/-- `Perft::perft` from `src/implementations/rust/src/perft.rs` (lines
17–36).  It calls `MoveGenerator::get_legal_moves` of its own crate (the
stub above) and makes each move on a copy of the state (`Board::new()`
followed by `set_state` installs a clone, so the original is untouched). -/
def perft (keys : ZKeys) : GameState → Nat → Option Nat
  | _, 0 => some 1
  | s, depth + 1 => perftFold keys (ImplMG.get_legal_moves s s.turn) s depth 0

/-- The `for chess_move in &moves { ... nodes += perft(...) }` loop of
`Perft::perft`, accumulating `nodes`. -/
def perftFold (keys : ZKeys) : List Move → GameState → Nat → Nat → Option Nat
  | [], _, _, nodes => some nodes
  | m :: ms, s, depth, nodes => do
    let test_board ← makeMove keys m s
    let n ← perft keys test_board depth
    perftFold keys ms s depth (nodes + n)

end

/-! The complete move generator, from `src/rust/src/move_generator.rs`
(the `src/implementations/rust` copy of this file stubs out
`generate_moves` and `get_legal_moves`; the per-piece generators are
identical in both copies).  Nat arithmetic is `i32` in the source and
`Int` here.  In the source, `let to_file = (toI % 8) as usize` is computed
before the validity test but only read under `is_valid_square(toI)`, where
`toI ≥ 0` makes Rust's truncating `%` agree with `Int.emod`. -/

/-- `MoveGenerator::is_valid_square`. -/
def isValidSquare (square : Int) : Bool :=
  decide (0 ≤ square ∧ square < 64)

/-- `MoveGenerator::generate_pawn_moves` (lines 36–109). -/
def generatePawnMoves (s : GameState) (f : Nat) (color : Color) : List Move :=
  let direction : Int := if color = .White then 8 else -8
  let start_rank : Nat := if color = .White then 1 else 6
  let promotion_rank : Nat := if color = .White then 7 else 0
  let from_i : Int := f
  let rank := f / 8
  let file := f % 8
  -- One square forward (and two squares forward from the starting rank)
  let forward :=
    let one_forward := from_i + direction
    if isValidSquare one_forward ∧ getPiece s one_forward.toNat = none then
      let toI := one_forward.toNat
      let pushes :=
        if toI / 8 = promotion_rank then
          [PieceType.Queen, .Rook, .Bishop, .Knight].map
            (fun promotion_piece => (Move.new f toI .Pawn).with_promotion promotion_piece)
        else
          [Move.new f toI .Pawn]
      let doubles :=
        if rank = start_rank then
          let two_forward := from_i + 2 * direction
          if isValidSquare two_forward ∧ getPiece s two_forward.toNat = none then
            [Move.new f two_forward.toNat .Pawn]
          else []
        else []
      pushes ++ doubles
    else []
  -- Captures
  let captures :=
    [direction - 1, direction + 1].flatMap (fun offset =>
      let toI := from_i + offset
      let to_file := toI % 8
      if isValidSquare toI ∧ (to_file - (file : Int)).natAbs = 1 then
        let to_square := toI.toNat
        match getPiece s to_square with
        | some target_piece =>
          if target_piece.color ≠ color then
            if to_square / 8 = promotion_rank then
              [PieceType.Queen, .Rook, .Bishop, .Knight].map
                (fun promotion_piece =>
                  ((Move.new f to_square .Pawn).with_capture
                    target_piece.piece_type).with_promotion promotion_piece)
            else
              [(Move.new f to_square .Pawn).with_capture target_piece.piece_type]
          else []
        | none => []
      else [])
  -- En passant
  let en_passant :=
    match s.en_passant_target with
    | some en_passant_target =>
      let expected_rank : Nat := if color = .White then 4 else 3
      if rank = expected_rank then
        [direction - 1, direction + 1].flatMap (fun offset =>
          let toI := from_i + offset
          if isValidSquare toI ∧ toI.toNat = en_passant_target then
            [((Move.new f toI.toNat .Pawn).with_capture .Pawn).with_en_passant]
          else [])
      else []
    | none => []
  forward ++ captures ++ en_passant

/-- `MoveGenerator::generate_knight_moves` (lines 111–135). -/
def generateKnightMoves (s : GameState) (f : Nat) (color : Color) : List Move :=
  let from_i : Int := f
  let file := f % 8
  [(-17 : Int), -15, -10, -6, 6, 10, 15, 17].flatMap (fun offset =>
    let toI := from_i + offset
    let to_file := toI % 8
    if isValidSquare toI ∧ (to_file - (file : Int)).natAbs ≤ 2 then
      let to_square := toI.toNat
      match getPiece s to_square with
      | none => [Move.new f to_square .Knight]
      | some piece =>
        if piece.color ≠ color then
          [(Move.new f to_square .Knight).with_capture piece.piece_type]
        else []
    else [])

/-- The `while` walk of `MoveGenerator::generate_sliding_moves` (lines
235–261) along one direction.  The walk advances `toI` by a fixed nonzero
`direction` each step and stops as soon as `toI` leaves 0..63, so it runs at
most 63 iterations; `fuel = 64` therefore reproduces the Rust loop exactly. -/
def slidingWalk (s : GameState) (f : Nat) (color : Color) (direction : Int)
    (piece_type : PieceType) : Nat → Int → Int → List Move
  | 0, _, _ => []
  | fuel + 1, toI, prev_file =>
    if isValidSquare toI then
      let to_file := toI % 8
      -- Check for wrapping (especially important for horizontal moves)
      if (direction = -1 ∨ direction = 1) ∧ (to_file - prev_file).natAbs ≠ 1 then []
      else
        let to_square := toI.toNat
        match getPiece s to_square with
        | none =>
          Move.new f to_square piece_type ::
            slidingWalk s f color direction piece_type fuel (toI + direction) to_file
        | some piece =>
          if piece.color ≠ color then
            [(Move.new f to_square piece_type).with_capture piece.piece_type]
          else []
    else []

/-- `MoveGenerator::generate_sliding_moves` (lines 227–265). -/
def generateSlidingMoves (s : GameState) (f : Nat) (color : Color)
    (directions : List Int) (piece_type : PieceType) : List Move :=
  directions.flatMap (fun direction =>
    slidingWalk s f color direction piece_type 64 ((f : Int) + direction) ((f : Int) % 8))

/-- `MoveGenerator::generate_king_moves` (lines 149–225), parameterized by
the attack query used by the castling branch. -/
def generateKingMovesA (att : GameState → Nat → Color → Bool) (s : GameState)
    (f : Nat) (color : Color) : List Move :=
  let from_i : Int := f
  let file := f % 8
  let steps :=
    [(-9 : Int), -8, -7, -1, 1, 7, 8, 9].flatMap (fun offset =>
      let toI := from_i + offset
      let to_file := toI % 8
      if isValidSquare toI ∧ (to_file - (file : Int)).natAbs ≤ 1 then
        let to_square := toI.toNat
        match getPiece s to_square with
        | none => [Move.new f to_square .King]
        | some piece =>
          if piece.color ≠ color then
            [(Move.new f to_square .King).with_capture piece.piece_type]
          else []
      else [])
  let rights := s.castling_rights
  let castles :=
    if color = .White ∧ f = 4 then
      let kingside :=
        if rights.white_kingside
            ∧ getPiece s 5 = none
            ∧ getPiece s 6 = none
            ∧ getPiece s 7 = some ⟨.Rook, .White⟩ then
          if att s 4 .Black = false
              ∧ att s 5 .Black = false
              ∧ att s 6 .Black = false then
            [(Move.new 4 6 .King).with_castling]
          else []
        else []
      let queenside :=
        if rights.white_queenside
            ∧ getPiece s 3 = none
            ∧ getPiece s 2 = none
            ∧ getPiece s 1 = none
            ∧ getPiece s 0 = some ⟨.Rook, .White⟩ then
          if att s 4 .Black = false
              ∧ att s 3 .Black = false
              ∧ att s 2 .Black = false then
            [(Move.new 4 2 .King).with_castling]
          else []
        else []
      kingside ++ queenside
    else if color = .Black ∧ f = 60 then
      let kingside :=
        if rights.black_kingside
            ∧ getPiece s 61 = none
            ∧ getPiece s 62 = none
            ∧ getPiece s 63 = some ⟨.Rook, .Black⟩ then
          if att s 60 .White = false
              ∧ att s 61 .White = false
              ∧ att s 62 .White = false then
            [(Move.new 60 62 .King).with_castling]
          else []
        else []
      let queenside :=
        if rights.black_queenside
            ∧ getPiece s 59 = none
            ∧ getPiece s 58 = none
            ∧ getPiece s 57 = none
            ∧ getPiece s 56 = some ⟨.Rook, .Black⟩ then
          if att s 60 .White = false
              ∧ att s 59 .White = false
              ∧ att s 58 .White = false then
            [(Move.new 60 58 .King).with_castling]
          else []
        else []
      kingside ++ queenside
    else []
  steps ++ castles

/-- `MoveGenerator::generate_piece_moves` (`src/rust/src/move_generator.rs`
lines 25–34), parameterized by the attack query `att` the castling branch of
the king generator consults.  In the source that query is
`is_square_attacked`, which itself generates every enemy piece's moves —
including the enemy king's castling branch — so the Rust recursion is
unbounded on boards where both sides simultaneously satisfy the castling
preconditions.  `isSquareAttacked` below ties the knot with a fuel bound on
that recursion depth; on every input where the Rust code terminates, all
sufficiently large fuels agree with it. -/
def generatePieceMovesA (att : GameState → Nat → Color → Bool) (s : GameState)
    (f : Nat) (piece : Piece) : List Move :=
  match piece.piece_type with
  | .Pawn => generatePawnMoves s f piece.color
  | .Knight => generateKnightMoves s f piece.color
  | .Bishop => generateSlidingMoves s f piece.color [-9, -7, 7, 9] .Bishop
  | .Rook => generateSlidingMoves s f piece.color [-8, -1, 1, 8] .Rook
  | .Queen => generateSlidingMoves s f piece.color [-9, -8, -7, -1, 1, 7, 8, 9] .Queen
  | .King => generateKingMovesA att s f piece.color

/-- `MoveGenerator::is_square_attacked` (`src/rust/src/move_generator.rs`
lines 267–279): any pseudo-legal move of `by_color` lands on `square`.
Fuel 0 answers `false`; fuel is consumed exactly at this function's call
into the piece generators (see `generatePieceMovesA`). -/
def isSquareAttacked : Nat → GameState → Nat → Color → Bool
  | 0, _, _, _ => false
  | fuel + 1, s, square, by_color =>
    (List.range 64).any (fun fr =>
      match getPiece s fr with
      | some piece =>
        if piece.color = by_color then
          (generatePieceMovesA (fun a b c => isSquareAttacked fuel a b c) s fr piece).any
            (fun m => m.to_sq = square)
        else false
      | none => false)

/-- `MoveGenerator::generate_piece_moves` (lines 25–34) at a given fuel. -/
def generatePieceMoves (fuel : Nat) (s : GameState) (f : Nat) (piece : Piece) :
    List Move :=
  generatePieceMovesA (fun a b c => isSquareAttacked fuel a b c) s f piece

/-- `MoveGenerator::generate_king_moves` (lines 149–225) at a given fuel. -/
def generateKingMoves (fuel : Nat) (s : GameState) (f : Nat) (color : Color) :
    List Move :=
  generateKingMovesA (fun a b c => isSquareAttacked fuel a b c) s f color

/-- `MoveGenerator::generate_moves` (`src/rust/src/move_generator.rs`
lines 11–23). -/
def generateMoves (fuel : Nat) (s : GameState) (color : Color) : List Move :=
  (List.range 64).flatMap (fun square =>
    match getPiece s square with
    | some piece =>
      if piece.color = color then generatePieceMoves fuel s square piece else []
    | none => [])

/-- `MoveGenerator::is_in_check` (`src/rust/src/move_generator.rs` lines
281–290): scan the board for the first king of `color` and ask whether its
square is attacked by the opposite color; `false` when no king is found. -/
def isInCheck (fuel : Nat) (s : GameState) (color : Color) : Bool :=
  match (List.range 64).find?
      (fun square => decide (getPiece s square = some ⟨.King, color⟩)) with
  | some square => isSquareAttacked fuel s square color.opposite
  | none => false

/-- The `for chess_move in moves` loop of `MoveGenerator::get_legal_moves`
(`src/rust/src/move_generator.rs` lines 296–306): each pseudo-legal move is
made on a fresh clone of the state (`Board::new()` + `set_state` installs the
clone, discarding the fresh board) and kept iff the mover is not in check
afterwards.  `none` is the panic `make_move` would raise. -/
def legalFilter (keys : ZKeys) (fuel : Nat) (color : Color) (s : GameState) :
    List Move → Option (List Move)
  | [] => some []
  | chess_move :: rest => do
    let test_board ← makeMove keys chess_move s
    let tail ← legalFilter keys fuel color s rest
    pure (if isInCheck fuel test_board color then tail else chess_move :: tail)

/-- `MoveGenerator::get_legal_moves` (`src/rust/src/move_generator.rs`
lines 292–309). -/
def getLegalMoves (keys : ZKeys) (fuel : Nat) (s : GameState) (color : Color) :
    Option (List Move) :=
  legalFilter keys fuel color s (generateMoves fuel s color)

namespace ImplMG

/-- One sliding ray of `MoveGenerator::is_square_attacked` from
`src/implementations/rust/src/move_generator.rs` (lines 300–319): walk
`(dr, df)` from the queried square until a piece or the board edge.  Each
step moves one rank or file, so at most 7 steps stay on the board; `fuel = 8`
reproduces the Rust `while` loop exactly. -/
def rayAttack (s : GameState) (by_color : Color) (dr df : Int) (is_rook_type : Bool) :
    Nat → Int → Int → Bool
  | 0, _, _ => false
  | fuel + 1, r, f =>
    if 0 ≤ r ∧ r < 8 ∧ 0 ≤ f ∧ f < 8 then
      match getPiece s (r * 8 + f).toNat with
      | some piece =>
        if piece.color = by_color then
          match piece.piece_type with
          | .Queen => true
          | .Rook => is_rook_type
          | .Bishop => !is_rook_type
          | _ => false
        else false
      | none => rayAttack s by_color dr df is_rook_type fuel (r + dr) (f + df)
    else false

/-- `MoveGenerator::is_square_attacked` from
`src/implementations/rust/src/move_generator.rs` (lines 259–339): the direct
table-free scan (pawn diagonals, knight template, sliding rays, king ring). -/
def is_square_attacked (s : GameState) (square : Nat) (by_color : Color) : Bool :=
  let row := square / 8
  let file := square % 8
  let from_i : Int := square
  -- Pawn attacks
  let pawn_direction : Int := if by_color = .White then -1 else 1
  let pawnHit :=
    [(-1 : Int), 1].any (fun file_offset =>
      let p_row : Int := (row : Int) + pawn_direction
      let p_file : Int := (file : Int) + file_offset
      if 0 ≤ p_row ∧ p_row < 8 ∧ 0 ≤ p_file ∧ p_file < 8 then
        decide (getPiece s (p_row * 8 + p_file).toNat = some ⟨.Pawn, by_color⟩)
      else false)
  -- Knight attacks
  let knightHit :=
    [(-17 : Int), -15, -10, -6, 6, 10, 15, 17].any (fun offset =>
      let toI := from_i + offset
      if 0 ≤ toI ∧ toI < 64 then
        let to_file := toI % 8
        if (to_file - (file : Int)).natAbs ≤ 2 then
          decide (getPiece s toI.toNat = some ⟨.Knight, by_color⟩)
        else false
      else false)
  -- Sliding attacks (Rook, Bishop, Queen)
  let slidingHit :=
    [((-1 : Int), (0 : Int), true), (1, 0, true), (0, -1, true), (0, 1, true),
     (-1, -1, false), (-1, 1, false), (1, -1, false), (1, 1, false)].any
      (fun dirTriple =>
        let (dr, df, is_rook_type) := dirTriple
        rayAttack s by_color dr df is_rook_type 8 ((row : Int) + dr) ((file : Int) + df))
  -- King attacks
  let kingHit :=
    [(-1 : Int), 0, 1].any (fun dr =>
      [(-1 : Int), 0, 1].any (fun df =>
        if dr = 0 ∧ df = 0 then false
        else
          let r := (row : Int) + dr
          let f := (file : Int) + df
          if 0 ≤ r ∧ r < 8 ∧ 0 ≤ f ∧ f < 8 then
            decide (getPiece s (r * 8 + f).toNat = some ⟨.King, by_color⟩)
          else false))
  pawnHit || knightHit || slidingHit || kingHit

/-- `MoveGenerator::is_in_check` from
`src/implementations/rust/src/move_generator.rs` (lines 341–350): find the
first king of `color`; `false` when there is none. -/
def is_in_check (s : GameState) (color : Color) : Bool :=
  match (List.range 64).find?
      (fun square => decide (getPiece s square = some ⟨.King, color⟩)) with
  | some square => is_square_attacked s square color.opposite
  | none => false

end ImplMG

/-- `PieceType::from_char` (`types.rs` lines 30–40). -/
def PieceType.from_char (ch : Char) : Option PieceType :=
  match ch.toUpper with
  | 'K' => some .King
  | 'Q' => some .Queen
  | 'R' => some .Rook
  | 'B' => some .Bishop
  | 'N' => some .Knight
  | 'P' => some .Pawn
  | _ => none

/-- `Piece::from_char` (`types.rs` lines 96–104). -/
def Piece.from_char (ch : Char) : Option Piece :=
  match PieceType.from_char ch with
  | some piece_type => some ⟨piece_type, if ch.isUpper then .White else .Black⟩
  | none => none

/-- `FILES` from `types.rs`. -/
def FILES : List Char := ['a', 'b', 'c', 'd', 'e', 'f', 'g', 'h']

/-- `RANKS` from `types.rs`. -/
def RANKS : List Char := ['1', '2', '3', '4', '5', '6', '7', '8']

/-- `algebraic_to_square` (`types.rs` lines 250–262).  Strings are embedded
as character lists throughout the FEN code. -/
def algebraicToSquare (algebraic : List Char) : Except String Nat :=
  match algebraic with
  | [c0, c1] =>
    match FILES.findIdx? (fun f => f == c0), RANKS.findIdx? (fun r => r == c1) with
    | some file, some rank => .ok (rank * 8 + file)
    | none, _ => .error "Invalid file"
    | some _, none => .error "Invalid rank"
  | _ => .error "Invalid algebraic notation"

/-- Rust `str::split_whitespace`: whitespace-separated fields, empties
dropped.  `acc` carries the current field reversed. -/
def splitWsAux : List Char → List Char → List (List Char)
  | [], acc => if acc.isEmpty then [] else [acc.reverse]
  | c :: cs, acc =>
    if c.isWhitespace then
      if acc.isEmpty then splitWsAux cs [] else acc.reverse :: splitWsAux cs []
    else splitWsAux cs (c :: acc)

/-- Rust `str::split_whitespace` over a character list. -/
def splitWs (l : List Char) : List (List Char) := splitWsAux l []

/-- Rust `u32::from_str` followed by `unwrap_or(default)`: an optional `+`
sign, then one or more ASCII digits whose value fits in `u32`; anything else
yields the default. -/
def parseU32 (l : List Char) (default : Nat) : Nat :=
  let digits := match l with | '+' :: rest => rest | _ => l
  if digits.isEmpty = false ∧ digits.all Char.isDigit then
    let v := digits.foldl (fun acc c => acc * 10 + (c.toNat - 48)) 0
    if v < 2 ^ 32 then v else default
  else default

/-- The piece-placement loop of `FenParser::parse_fen`
(`src/rust/src/fen.rs` lines 30–45), threading `(board, square)`.  `none` is
a panic: the `usize` underflow of `square -= 16`, or the out-of-range board
index a malformed placement field can reach. -/
def fenPlaceLoop : List Char → GameState × Nat → Option (GameState × Nat)
  | [], st => some st
  | ch :: rest, (b, square) =>
    if ch = '/' then
      if square < 16 then none else fenPlaceLoop rest (b, square - 16)
    else if '1' ≤ ch ∧ ch ≤ '8' then
      fenPlaceLoop rest (b, square + (ch.toNat - 48))
    else
      match Piece.from_char ch with
      | some piece =>
        if square < 64 then fenPlaceLoop rest (setPiece b square (some piece), square + 1)
        else none
      | none => fenPlaceLoop rest (b, square)

/-- `FenParser::parse_fen` (`src/rust/src/fen.rs` lines 11–80).  The board
argument is mutated in place in Rust; here the returned state is the board
after the call, paired with the `Result`.  The outer `none` is a panic in
the placement loop.  Note the source order: the board is cleared and the
placement field applied *before* the side-to-move field is validated. -/
def parseFen (b0 : GameState) (fen : List Char) : Option (Except String Unit × GameState) :=
  let parts := splitWs fen
  if parts.length < 4 then some (.error "ERROR: Invalid FEN string", b0)
  else
    let pieces := parts.getD 0 []
    let turn := parts.getD 1 []
    let castling := parts.getD 2 []
    let en_passant := parts.getD 3 []
    let halfmove := parts.getD 4 ['0']
    let fullmove := parts.getD 5 ['1']
    -- Clear board
    let b := (List.range 64).foldl (fun b i => setPiece b i none) b0
    -- Parse piece positions (square starts at 56, a8)
    match fenPlaceLoop pieces (b, 56) with
    | none => none
    | some (b, _) =>
      -- Parse turn
      let color? : Option Color :=
        if turn = ['w'] then some .White
        else if turn = ['b'] then some .Black
        else none
      match color? with
      | none => some (.error "ERROR: Invalid FEN string", b)
      | some color =>
        let b := { b with turn := color }
        -- Parse castling rights
        let rights : CastlingRights :=
          { white_kingside := castling.contains 'K',
            white_queenside := castling.contains 'Q',
            black_kingside := castling.contains 'k',
            black_queenside := castling.contains 'q' }
        let b := { b with castling_rights := rights }
        -- Parse en passant target (an unparsable non "-" field leaves it unchanged)
        let b :=
          if en_passant ≠ ['-'] then
            match algebraicToSquare en_passant with
            | .ok square => { b with en_passant_target := some square }
            | .error _ => b
          else { b with en_passant_target := none }
        -- Parse move counters
        let b := { b with
          halfmove_clock := parseU32 halfmove 0,
          fullmove_number := parseU32 fullmove 1 }
        some (.ok (), b)

/-- A concrete all-zero key table, used as a test fixture in witnesses (the
key values are irrelevant to every property proved here). -/
def zeroKeys : ZKeys :=
  { pieces := fun _ _ => 0, castling := fun _ => 0, en_passant := fun _ => 0,
    side_to_move := 0 }

/-- The 20 legal moves of the starting position for White, in the order the
generator produces them (a witness fixture). -/
def initWhiteLegal : List Move :=
  [Move.new 1 16 .Knight, Move.new 1 18 .Knight,
   Move.new 6 21 .Knight, Move.new 6 23 .Knight,
   Move.new 8 16 .Pawn, Move.new 8 24 .Pawn,
   Move.new 9 17 .Pawn, Move.new 9 25 .Pawn,
   Move.new 10 18 .Pawn, Move.new 10 26 .Pawn,
   Move.new 11 19 .Pawn, Move.new 11 27 .Pawn,
   Move.new 12 20 .Pawn, Move.new 12 28 .Pawn,
   Move.new 13 21 .Pawn, Move.new 13 29 .Pawn,
   Move.new 14 22 .Pawn, Move.new 14 30 .Pawn,
   Move.new 15 23 .Pawn, Move.new 15 31 .Pawn]

/-- A board with no pieces at all, a C10 witness fixture. -/
def kinglessState : GameState :=
  { GameState.new with board := List.replicate 64 none }

/-- Shape well-formedness maintained by the engine: the board array has its
64 slots and the `u32` counters denote values below `2^32`. -/
def WF (s : GameState) : Prop :=
  s.board.length = 64 ∧ s.fullmove_number < 2 ^ 32 ∧ s.halfmove_clock < 2 ^ 32

/-- The en-passant consistency every position reachable through legal play
satisfies (spec section 3: `ep_target` is "set only when the previous move
was a two-square pawn push, on the square the pawn crossed"): the target
square is empty, sits on the crossed rank, and the pawn that double-pushed
stands behind it. -/
def EPInv (s : GameState) : Prop :=
  ∀ t, s.en_passant_target = some t →
    (s.turn = .White →
      40 ≤ t ∧ t ≤ 47 ∧ getPiece s t = none ∧
        getPiece s (t - 8) = some ⟨.Pawn, .Black⟩) ∧
    (s.turn = .Black →
      16 ≤ t ∧ t ≤ 23 ∧ getPiece s t = none ∧
        getPiece s (t + 8) = some ⟨.Pawn, .White⟩)

/-- The capture fields of a non-en-passant move agree with the board. -/
def PlainCapOk (s : GameState) (m : Move) (p : Piece) : Prop :=
  match m.captured with
  | some ct => getPiece s m.to_sq = some ⟨ct, p.color.opposite⟩
  | none => getPiece s m.to_sq = none

/-- The fields of an en-passant capture agree with the board. -/
def EPCapOk (s : GameState) (m : Move) (p : Piece) : Prop :=
  m.captured = some .Pawn ∧
  (p.color = .White → 8 ≤ m.to_sq) ∧
  epCapSq m p < 64 ∧
  epCapSq m p ≠ m.from_sq ∧
  epCapSq m p ≠ m.to_sq ∧
  getPiece s (epCapSq m p) = some ⟨.Pawn, p.color.opposite⟩ ∧
  getPiece s m.to_sq = none

/-- A castling move's fields and the board configuration it presumes:
exactly the four king/rook layouts `generate_king_moves` checks before
emitting castling. -/
def CastleOk (s : GameState) (m : Move) (p : Piece) : Prop :=
  p.piece_type = .King ∧
  m.captured = none ∧
  m.is_en_passant = false ∧
  m.promotion = none ∧
  ((p.color = .White ∧ m.from_sq = 4 ∧
      ((m.to_sq = 6 ∧ getPiece s 5 = none ∧ getPiece s 6 = none ∧
          getPiece s 7 = some ⟨.Rook, .White⟩) ∨
       (m.to_sq = 2 ∧ getPiece s 3 = none ∧ getPiece s 2 = none ∧
          getPiece s 1 = none ∧ getPiece s 0 = some ⟨.Rook, .White⟩))) ∨
   (p.color = .Black ∧ m.from_sq = 60 ∧
      ((m.to_sq = 62 ∧ getPiece s 61 = none ∧ getPiece s 62 = none ∧
          getPiece s 63 = some ⟨.Rook, .Black⟩) ∨
       (m.to_sq = 58 ∧ getPiece s 59 = none ∧ getPiece s 58 = none ∧
          getPiece s 57 = none ∧ getPiece s 56 = some ⟨.Rook, .Black⟩))))

/-- When the move is the two-square pawn push `make_move` recognises at
`board.rs` line 177, the crossed square is empty and the push starts from
the pawn's starting rank with plain fields. -/
def DblOk (s : GameState) (m : Move) (p : Piece) : Prop :=
  p.piece_type = .Pawn → ((m.to_sq : Int) - (m.from_sq : Int)).natAbs = 16 →
    getPiece s ((m.from_sq + m.to_sq) / 2) = none ∧
    m.captured = none ∧ m.promotion = none ∧ m.is_castling = false ∧
    (p.color = .White → m.to_sq = m.from_sq + 16 ∧ m.from_sq / 8 = 1) ∧
    (p.color = .Black → m.to_sq + 16 = m.from_sq ∧ m.from_sq / 8 = 6)

/-- Everything `make_move`/`undo_move` need from a move for the round-trip
and the incremental hash to work out — exactly the facts the legal move
generator guarantees about the moves it emits. -/
structure MoveOk (s : GameState) (m : Move) (p : Piece) : Prop where
  src : getPiece s m.from_sq = some p
  from_lt : m.from_sq < 64
  to_lt : m.to_sq < 64
  ne : m.from_sq ≠ m.to_sq
  turn_eq : p.color = s.turn
  promo_pawn : m.promotion.isSome = true → p.piece_type = .Pawn
  cap_ok : if m.is_en_passant then EPCapOk s m p else PlainCapOk s m p
  castle_ok : m.is_castling = true → CastleOk s m p
  dbl_ok : DblOk s m p

/-- The positions reachable from the freshly constructed board by repeatedly
making moves drawn from `get_legal_moves` (all at one attack-recursion
fuel). -/
inductive Reachable (keys : ZKeys) (fuel : Nat) : GameState → Prop where
  | init : Reachable keys fuel (boardNew keys)
  | step {s ms m s'} : Reachable keys fuel s →
      getLegalMoves keys fuel s s.turn = some ms → m ∈ ms →
      makeMove keys m s = some s' → Reachable keys fuel s'

/-- The key a square contributes to `boardHash` given its contents. -/
def optKey (keys : ZKeys) (sq : Nat) : Option Piece → Nat
  | some p => keys.pieces (pieceToIndex p) sq
  | none => 0

/-- XOR of a list of words. -/
def xorList (l : List Nat) : Nat := l.foldr (fun a b => a ^^^ b) 0

/-! ### Theorems -/

/-- Membership in the legality-filter loop: a pseudo-legal move survives iff
making it succeeds and leaves `color` not in check. -/
theorem legalFilter_mem (keys : ZKeys) (fuel : Nat) (c : Color) (s : GameState)
    (l : List Move) :
    ∀ out, legalFilter keys fuel c s l = some out →
      ∀ m, (m ∈ out ↔ m ∈ l ∧
        ∃ s', makeMove keys m s = some s' ∧ isInCheck fuel s' c = false) := by
  induction l with
  | nil =>
    intro out h m
    simp only [legalFilter] at h
    cases h
    simp
  | cons a rest ih =>
    intro out h m
    simp only [legalFilter] at h
    cases hma : makeMove keys a s with
    | none => rw [hma] at h; cases h
    | some sa =>
      rw [hma] at h
      cases hrest : legalFilter keys fuel c s rest with
      | none => rw [hrest] at h; cases h
      | some tail =>
        rw [hrest] at h
        replace h : (if isInCheck fuel sa c = true then tail else a :: tail) = out := by
          simpa using h
        have ihm := ih tail hrest m
        by_cases hc : isInCheck fuel sa c = true
        · rw [if_pos hc] at h
          subst h
          rw [ihm]
          constructor
          · rintro ⟨hmem, hP⟩
            exact ⟨List.mem_cons_of_mem a hmem, hP⟩
          · rintro ⟨hmem, s', hmk, hchk⟩
            rcases List.mem_cons.mp hmem with heq | hmem
            · subst heq
              rw [hma] at hmk
              cases hmk
              rw [hchk] at hc
              cases hc
            · exact ⟨hmem, s', hmk, hchk⟩
        · rw [if_neg hc] at h
          subst h
          constructor
          · intro hmem
            rcases List.mem_cons.mp hmem with heq | hmem2
            · subst heq
              exact ⟨List.mem_cons_self m rest, sa, hma, by simpa using hc⟩
            · obtain ⟨h1, h2⟩ := ihm.mp hmem2
              exact ⟨List.mem_cons_of_mem a h1, h2⟩
          · rintro ⟨hmem, s', hmk, hchk⟩
            rcases List.mem_cons.mp hmem with heq | hmem2
            · subst heq
              exact List.mem_cons_self m tail
            · exact List.mem_cons_of_mem a (ihm.mpr ⟨hmem2, s', hmk, hchk⟩)

/-- C3.  A move is in the list returned by `get_legal_moves` iff it is
pseudo-legal and, after `make_move` succeeds on it, the mover's side is not
in check — in particular every returned move leaves the mover's king safe.
(`get_legal_moves` tests each pseudo-legal move on a clone of the position,
so the original position is not consumed.) -/
theorem legalMoves_mem_iff_no_check (keys : ZKeys) (fuel : Nat) (s : GameState)
    (c : Color) (ms : List Move) (m : Move)
    (h : getLegalMoves keys fuel s c = some ms) :
    m ∈ ms ↔ m ∈ generateMoves fuel s c ∧
      ∃ s', makeMove keys m s = some s' ∧ isInCheck fuel s' c = false :=
  legalFilter_mem keys fuel c s (generateMoves fuel s c) ms h m

/-- Witness for C3 at a concrete input: the double pawn push a2a4 from the
initial position. -/
theorem legalMoves_mem_iff_no_check_witness :
    ∃ ms, getLegalMoves zeroKeys 2 (boardNew zeroKeys) .White = some ms ∧
      (Move.new 8 24 .Pawn ∈ ms ↔
        Move.new 8 24 .Pawn ∈ generateMoves 2 (boardNew zeroKeys) .White ∧
        ∃ s', makeMove zeroKeys (Move.new 8 24 .Pawn) (boardNew zeroKeys) = some s' ∧
          isInCheck 2 s' .White = false) :=
  ⟨initWhiteLegal, by decide,
    legalMoves_mem_iff_no_check zeroKeys 2 (boardNew zeroKeys) .White initWhiteLegal
      (Move.new 8 24 .Pawn) (by decide)⟩

/-- C4.  `Perft::perft` composes with its own crate's
`MoveGenerator::get_legal_moves`, which is a stub returning an empty list,
so at every positive depth — from the starting position in particular — it
counts `0`, not the claimed 20/400/8902/197281/4865609. -/
theorem perft_stub_returns_zero (keys : ZKeys) (s : GameState) (d : Nat) :
    perft keys s (d + 1) = some 0 := by
  simp [perft, ImplMG.get_legal_moves, perftFold]

/-- The maximizing arm of `minimax` classifies its stored bound exactly as
claim C5 states: against the alpha the node was entered with (before the
loop raised it) and against beta. -/
theorem maxArm_bound_classification (children : List (Move × Int))
    (original_alpha alpha beta : Int) :
    ((maxArm children original_alpha alpha beta).2.2 = .UpperBound ↔
      (maxArm children original_alpha alpha beta).1 ≤ original_alpha) ∧
    ((maxArm children original_alpha alpha beta).2.2 = .LowerBound ↔
      (original_alpha < (maxArm children original_alpha alpha beta).1 ∧
        beta ≤ (maxArm children original_alpha alpha beta).1)) := by
  cases hr : maxArmLoop beta children alpha (-(2 ^ 31)) none with
  | mk max_eval best =>
    simp only [maxArm, hr]
    constructor <;> split_ifs <;> simp_all

/-- C5.  In the minimizing arm the labels are swapped: a node entered with
`alpha = 0, beta = 10` whose single child evaluates to `−5` finishes with
best score `−5 ≤ alpha` — a fail-low, an upper bound by the claim (and by
`BoundType`'s own doc comments) — yet the code stores `LowerBound`. -/
theorem minArm_stores_lower_on_fail_low :
    minArm [(Move.new 8 16 .Pawn, -5)] 0 10 =
      (-5, some (encodeMove 8 16), BoundType.LowerBound) ∧
    BoundType.LowerBound ≠ BoundType.UpperBound := by
  decide

/-- C7.  `interpolate` divides by 256 while weighting `mg` by `phase ≤ 24`,
so neither endpoint equation of the spec holds: at `phase = 24` it returns
`24·mg/256` (e.g. 24 for `mg = 256`), and at `phase = 0` it returns
`240·eg/256` (e.g. 240 for `eg = 256`). -/
theorem interpolate_endpoints_fail :
    interpolate 256 0 24 = 24 ∧ interpolate 0 256 0 = 240 ∧
    (24 : Int) ≠ 256 ∧ (240 : Int) ≠ 256 := by
  decide

/-- C9.  `undo_move` on an empty move history: `Vec::pop` returns `None`
before any field is touched, so the call returns `None` and the position is
bit-for-bit unchanged. -/
theorem undoMove_empty_history_noop (s : GameState) (h : s.move_history = []) :
    undoMove s = some (none, s) := by
  unfold undoMove
  rw [h]

/-- Witness for C9 at the initial position. -/
theorem undoMove_empty_history_noop_witness :
    undoMove GameState.new = some (none, GameState.new) :=
  undoMove_empty_history_noop GameState.new rfl

/-- C10.  Both copies of `is_in_check` scan the board for the first king of
the queried color and return `false` when none exists; the attack query is
reached only via a found king square, so a kingless color is never "in
check" and no failure occurs. -/
theorem isInCheck_no_king_false (fuel : Nat) (s : GameState) (c : Color)
    (h : ∀ sq, sq < 64 → getPiece s sq ≠ some ⟨.King, c⟩) :
    isInCheck fuel s c = false ∧ ImplMG.is_in_check s c = false := by
  have hfind : (List.range 64).find?
      (fun square => decide (getPiece s square = some ⟨.King, c⟩)) = none := by
    apply List.find?_eq_none.mpr
    intro x hx
    simp only [List.mem_range] at hx
    simp [h x hx]
  exact ⟨by simp [isInCheck, hfind], by simp [ImplMG.is_in_check, hfind]⟩

/-- C6 counterexample.  A FEN whose first four fields are present but whose
side-to-move field is invalid (`"8/8/8/8/8/8/8/8 x - -"`) makes `parse_fen`
return an error only after the board array has been cleared and rewritten:
the resulting position differs from the initial position it started from. -/
theorem parseFen_invalid_turn_mutates :
    (parseFen (boardNew zeroKeys) "8/8/8/8/8/8/8/8 x - -".toList).map
        (fun r => (r.1.isOk, decide (r.2 = boardNew zeroKeys))) =
      some (false, false) := by
  decide

/-- C6 as amended.  Only the up-front field-count check fails before any
mutation: an input with fewer than four whitespace-separated fields yields
the error with the position bit-for-bit unchanged. -/
theorem parseFen_short_input_unchanged (b : GameState) (fen : List Char)
    (h : (splitWs fen).length < 4) :
    parseFen b fen = some (Except.error "ERROR: Invalid FEN string", b) := by
  unfold parseFen
  rw [if_pos h]

/-- Witness for the amended C6 on the input `"abc"`. -/
theorem parseFen_short_input_unchanged_witness :
    parseFen (boardNew zeroKeys) "abc".toList =
      some (Except.error "ERROR: Invalid FEN string", boardNew zeroKeys) :=
  parseFen_short_input_unchanged (boardNew zeroKeys) "abc".toList (by decide)

/-- C8 counterexample.  With a same-age, deeper entry (key 1, depth 10)
occupying the slot that key 2 hashes to, `store(2, 3, 7, Exact, Some 5)` is
a no-op by the replacement policy, and the following `probe(2)` returns
`None` rather than the just-stored fields. -/
theorem ttStore_probe_roundtrip_fails :
    ttStore (⟨[⟨1, 10, 0, .Exact, none, 0⟩], 0, 1⟩ : TranspositionTable)
        2 3 7 .Exact (some 5) =
      (⟨[⟨1, 10, 0, .Exact, none, 0⟩], 0, 1⟩ : TranspositionTable) ∧
    ttProbe (ttStore (⟨[⟨1, 10, 0, .Exact, none, 0⟩], 0, 1⟩ : TranspositionTable)
        2 3 7 .Exact (some 5)) 2 = none := by
  decide

/-- C8 as amended.  `store(k, d, s, Exact, m); probe(k)` returns exactly the
stored fields provided `k ≠ 0` (a zero key is stored but reads back as an
invalid slot) and the replacement policy actually writes: the target slot is
empty, of a different age, or of depth ≤ d. -/
theorem ttStore_probe_roundtrip (t : TranspositionTable) (key depth : Nat)
    (score : Int) (bm : Option Nat)
    (hkey : key ≠ 0)
    (hidx : ttIndex t key < t.entries.length)
    (hrepl : (t.entries.getD (ttIndex t key) TTEntry.empty).is_valid = false ∨
        (t.entries.getD (ttIndex t key) TTEntry.empty).age ≠ t.age ∨
        (t.entries.getD (ttIndex t key) TTEntry.empty).depth ≤ depth) :
    ttProbe (ttStore t key depth score .Exact bm) key =
      some ⟨key, depth, score, .Exact, bm, t.age⟩ := by
  unfold ttStore
  rw [if_pos hrepl]
  unfold ttProbe ttIndex
  simp only
  rw [List.getD_eq_getElem?_getD, List.getElem?_set_self (by simpa [ttIndex] using hidx)]
  simp [TTEntry.is_valid, hkey]

/-- Witness for the amended C8: storing into an empty two-slot table. -/
theorem ttStore_probe_roundtrip_witness :
    ttProbe (ttStore (⟨[TTEntry.empty, TTEntry.empty], 0, 2⟩ : TranspositionTable)
        5 3 100 .Exact (some 7)) 5 =
      some ⟨5, 3, 100, .Exact, some 7, 0⟩ :=
  ttStore_probe_roundtrip ⟨[TTEntry.empty, TTEntry.empty], 0, 2⟩ 5 3 100 (some 7)
    (by decide) (by decide) (by decide)

/-- Witness for C10 on an empty board. -/
theorem isInCheck_no_king_false_witness :
    isInCheck 1 kinglessState .White = false ∧
      ImplMG.is_in_check kinglessState .White = false :=
  isInCheck_no_king_false 1 kinglessState .White (by decide)

/-- Two game states with equal fields are equal. -/
theorem GameState.ext' {a b : GameState}
    (h1 : a.board = b.board) (h2 : a.turn = b.turn)
    (h3 : a.castling_rights = b.castling_rights)
    (h4 : a.en_passant_target = b.en_passant_target)
    (h5 : a.halfmove_clock = b.halfmove_clock)
    (h6 : a.fullmove_number = b.fullmove_number)
    (h7 : a.move_history = b.move_history)
    (h8 : a.irreversible_history = b.irreversible_history)
    (h9 : a.position_history = b.position_history)
    (h10 : a.zobrist_hash = b.zobrist_hash) : a = b := by
  cases a; cases b; simp_all

theorem getPiece_setPiece_self (s : GameState) (sq : Nat) (v : Option Piece)
    (h : sq < s.board.length) : getPiece (setPiece s sq v) sq = v := by
  simp [getPiece, setPiece, List.getD_eq_getElem?_getD, List.getElem?_set_self h]

theorem getPiece_setPiece_ne (s : GameState) {sq j : Nat} (v : Option Piece)
    (h : sq ≠ j) : getPiece (setPiece s sq v) j = getPiece s j := by
  simp [getPiece, setPiece, List.getD_eq_getElem?_getD, List.getElem?_set_ne h]

theorem setPiece_board_length (s : GameState) (sq : Nat) (v : Option Piece) :
    (setPiece s sq v).board.length = s.board.length := by
  simp [setPiece]

theorem xorLeftComm (a b c : Nat) : a ^^^ (b ^^^ c) = b ^^^ (a ^^^ c) := by
  rw [← Nat.xor_assoc, Nat.xor_comm a b, Nat.xor_assoc]

theorem xorCancelLeft (a b : Nat) : a ^^^ (a ^^^ b) = b := by
  rw [← Nat.xor_assoc, Nat.xor_self, Nat.zero_xor]

theorem foldl_xor_eq (keys : ZKeys) (s : GameState) (l : List Nat) (a : Nat) :
    l.foldl (fun h sq =>
      match getPiece s sq with
      | some p => h ^^^ keys.pieces (pieceToIndex p) sq
      | none => h) a =
    a ^^^ xorList (l.map (fun sq => optKey keys sq (getPiece s sq))) := by
  induction l generalizing a with
  | nil => simp [xorList]
  | cons x t ih =>
    simp only [List.foldl_cons, List.map_cons, xorList, List.foldr_cons]
    cases hx : getPiece s x with
    | none => rw [ih]; simp [optKey, hx, xorList]
    | some p => rw [ih]; simp [optKey, hx, xorList, Nat.xor_assoc]

/-- `boardHash` as the XOR of each square's contribution. -/
theorem boardHash_eq (keys : ZKeys) (s : GameState) :
    boardHash keys s =
      xorList ((List.range 64).map (fun sq => optKey keys sq (getPiece s sq))) := by
  rw [boardHash, foldl_xor_eq, Nat.zero_xor]

theorem xorList_cons (a : Nat) (l : List Nat) : xorList (a :: l) = a ^^^ xorList l :=
  rfl

theorem xorList_map_single_diff (f g : Nat → Nat) (sq : Nat) :
    ∀ l : List Nat, l.Nodup → sq ∈ l → (∀ x ∈ l, x ≠ sq → f x = g x) →
      xorList (l.map g) = xorList (l.map f) ^^^ f sq ^^^ g sq := by
  intro l
  induction l with
  | nil => intro _ hmem; cases hmem
  | cons a t ih =>
    intro hnd hmem hoth
    have hand := List.nodup_cons.mp hnd
    rcases List.mem_cons.mp hmem with heq | hmem_t
    · subst heq
      have hmap : t.map f = t.map g :=
        List.map_congr_left (fun x hx =>
          hoth x (List.mem_cons_of_mem sq hx) (fun hxa => hand.1 (hxa ▸ hx)))
      rw [List.map_cons, List.map_cons, xorList_cons, xorList_cons, hmap]
      simp [Nat.xor_assoc, Nat.xor_comm, xorLeftComm, xorCancelLeft,
        Nat.xor_self, Nat.xor_zero, Nat.zero_xor]
    · have ha : a ≠ sq := fun h => hand.1 (h ▸ hmem_t)
      have hfa : f a = g a := hoth a (List.mem_cons_self a t) ha
      rw [List.map_cons, List.map_cons, xorList_cons, xorList_cons,
        ih hand.2 hmem_t
          (fun x hx hne => hoth x (List.mem_cons_of_mem a hx) hne), hfa]
      simp [Nat.xor_assoc, Nat.xor_comm, xorLeftComm, xorCancelLeft,
        Nat.xor_self, Nat.xor_zero, Nat.zero_xor]

/-- Writing one square changes `boardHash` by the old and new keys of that
square. -/
theorem boardHash_setPiece (keys : ZKeys) (s : GameState) (sq : Nat)
    (v : Option Piece) (hlen : s.board.length = 64) (hsq : sq < 64) :
    boardHash keys (setPiece s sq v) =
      boardHash keys s ^^^ optKey keys sq (getPiece s sq) ^^^ optKey keys sq v := by
  rw [boardHash_eq, boardHash_eq,
    xorList_map_single_diff (fun x => optKey keys x (getPiece s x))
      (fun x => optKey keys x (getPiece (setPiece s sq v) x)) sq (List.range 64)
      (List.nodup_range 64) (List.mem_range.mpr hsq)
      (fun x _ hne => by
        simp only [getPiece_setPiece_ne s v (Ne.symm hne)])]
  simp only [getPiece_setPiece_self s sq v (hlen ▸ hsq)]

theorem ite_some {α : Type} (C : Prop) [Decidable C] (a b : α) :
    (if C then some a else some b) = some (if C then a else b) := by
  split <;> rfl

theorem ite_pair {α β : Type} (C : Prop) [Decidable C] (a₁ a₂ : α) (b₁ b₂ : β) :
    (if C then (a₁, b₁) else (a₂, b₂)) = (if C then a₁ else a₂, if C then b₁ else b₂) := by
  split <;> rfl

theorem ite_update_ep (C : Prop) [Decidable C] (s : GameState) (x y : Option Nat) :
    (if C then { s with en_passant_target := x } else { s with en_passant_target := y }) =
      { s with en_passant_target := if C then x else y } := by
  split <;> rfl

theorem ite_update_halfmove (C : Prop) [Decidable C] (s : GameState) (x y : Nat) :
    (if C then { s with halfmove_clock := x } else { s with halfmove_clock := y }) =
      { s with halfmove_clock := if C then x else y } := by
  split <;> rfl

theorem ite_update_fullmove (C : Prop) [Decidable C] (s : GameState) (x : Nat) :
    (if C then { s with fullmove_number := x } else s) =
      { s with fullmove_number := if C then x else s.fullmove_number } := by
  split <;> rfl

theorem listGetD_set_self (l : List (Option Piece)) (i : Nat) (v : Option Piece)
    (h : i < l.length) : (l.set i v).getD i none = v := by
  simp [List.getD_eq_getElem?_getD, List.getElem?_set_self h]

theorem listGetD_set_ne (l : List (Option Piece)) {i j : Nat} (v : Option Piece)
    (h : i ≠ j) : (l.set i v).getD j none = l.getD j none := by
  simp [List.getD_eq_getElem?_getD, List.getElem?_set_ne h]

theorem getD_none_getElem? (l : List (Option Piece)) (i : Nat) (h : i < l.length)
    (hg : l.getD i none = none) : l[i]? = some none := by
  rw [List.getElem?_eq_getElem h]
  rw [List.getD_eq_getElem?_getD, List.getElem?_eq_getElem h] at hg
  simp_all

theorem getD_some_getElem? (l : List (Option Piece)) (i : Nat) (p : Piece)
    (h : i < l.length) (hg : l.getD i none = some p) : l[i]? = some (some p) := by
  rw [List.getElem?_eq_getElem h]
  rw [List.getD_eq_getElem?_getD, List.getElem?_eq_getElem h] at hg
  simp_all

theorem Color.opposite_opposite (c : Color) : c.opposite.opposite = c := by
  cases c <;> rfl

theorem getElem?_eq_some_getD (l : List (Option Piece)) (i : Nat) (h : i < l.length) :
    l[i]? = some (l.getD i none) := by
  rw [List.getD_eq_getElem?_getD, List.getElem?_eq_getElem h]
  rfl

theorem board_restore (bd : List (Option Piece)) (a b : Nat) (d va vb : Option Piece)
    (hne : a ≠ b) (ha : a < bd.length) (hb : b < bd.length)
    (hav : bd.getD a none = va) (hbv : bd.getD b none = vb) :
    ((((bd.set b d).set a none).set a va).set b vb) = bd := by
  apply List.ext_getElem?
  intro j
  by_cases hjb : j = b
  · subst hjb
    rw [List.getElem?_set_self (by simpa using hb), getElem?_eq_some_getD bd j hb, hbv]
  · rw [List.getElem?_set_ne (fun h => hjb h.symm)]
    by_cases hja : j = a
    · subst hja
      rw [List.getElem?_set_self (by simpa using ha), getElem?_eq_some_getD bd j ha, hav]
    · rw [List.getElem?_set_ne (fun h => hja h.symm),
        List.getElem?_set_ne (fun h => hja h.symm),
        List.getElem?_set_ne (fun h => hjb h.symm)]

theorem undo_plain_generic (s : GameState) (m : Move) (p : Piece)
    (CR : CastlingRights) (EP : Option Nat) (HM H : Nat)
    (hsrc : getPiece s m.from_sq = some p) (hfrom : m.from_sq < 64) (hto : m.to_sq < 64)
    (hne : m.from_sq ≠ m.to_sq) (hturn : p.color = s.turn)
    (hpro : m.promotion.isSome = true → p.piece_type = .Pawn)
    (hplain : PlainCapOk s m p)
    (hcastle : m.is_castling = false) (hep : m.is_en_passant = false)
    (hlen : s.board.length = 64) (hfm : s.fullmove_number < 2 ^ 32) :
    undoMove { board := (s.board.set m.to_sq (some (destPiece m p))).set m.from_sq none,
               turn := p.color.opposite,
               castling_rights := CR, en_passant_target := EP, halfmove_clock := HM,
               fullmove_number := newFullmove p s.fullmove_number,
               move_history := m :: s.move_history,
               irreversible_history :=
                 { castling_rights := s.castling_rights,
                   en_passant_target := s.en_passant_target,
                   halfmove_clock := s.halfmove_clock,
                   zobrist_hash := s.zobrist_hash } :: s.irreversible_history,
               position_history := s.zobrist_hash :: s.position_history,
               zobrist_hash := H } = some (some m, s) := by
  have hfrom_len : m.from_sq < s.board.length := hlen ▸ hfrom
  have hto_len : m.to_sq < s.board.length := hlen ▸ hto
  have hgetdest : ((s.board.set m.to_sq (some (destPiece m p))).set m.from_sq none).getD m.to_sq none
      = some (destPiece m p) := by
    rw [listGetD_set_ne _ _ hne, listGetD_set_self _ _ _ (by simpa using hto_len)]
  have hdcolor : (destPiece m p).color = p.color := by
    unfold destPiece; cases m.promotion <;> rfl
  have horig : (if m.promotion.isSome then (⟨.Pawn, (destPiece m p).color⟩ : Piece)
      else destPiece m p) = p := by
    cases hpr : m.promotion with
    | none => simp [destPiece, hpr]
    | some pt =>
      have := hpro (by simp [hpr])
      simp only [hpr, Option.isSome_some, if_pos]
      rw [hdcolor]
      cases p
      simp_all
  have hsrc' : s.board.getD m.from_sq none = some p := hsrc
  simp only [undoMove, getPiece, hgetdest, horig, hcastle, hep, Bool.false_eq_true, if_false,
    List.tail_cons]
  simp only [PlainCapOk, getPiece] at hplain
  cases hcap : m.captured with
  | none =>
    rw [hcap] at hplain
    simp only [setPiece, hdcolor]
    have hb := board_restore s.board m.from_sq m.to_sq (some (destPiece m p)) (some p) none
      hne hfrom_len hto_len hsrc' hplain
    simp only [Option.some.injEq, Prod.mk.injEq, true_and]
    by_cases hpb : p.color = .Black
    · rw [if_pos hpb]
      exact GameState.ext' hb hturn rfl rfl rfl
        (by simp only [newFullmove, if_pos hpb]; omega) rfl rfl rfl rfl
    · rw [if_neg hpb]
      exact GameState.ext' hb hturn rfl rfl rfl
        (by simp only [newFullmove, if_neg hpb]) rfl rfl rfl rfl
  | some ct =>
    rw [hcap] at hplain
    simp only [setPiece, hdcolor]
    have hb := board_restore s.board m.from_sq m.to_sq (some (destPiece m p)) (some p)
      (some ⟨ct, p.color.opposite⟩) hne hfrom_len hto_len hsrc' hplain
    simp only [Option.some.injEq, Prod.mk.injEq, true_and]
    by_cases hpb : p.color = .Black
    · rw [if_pos hpb]
      exact GameState.ext' hb hturn rfl rfl rfl
        (by simp only [newFullmove, if_pos hpb]; omega) rfl rfl rfl rfl
    · rw [if_neg hpb]
      exact GameState.ext' hb hturn rfl rfl rfl
        (by simp only [newFullmove, if_neg hpb]) rfl rfl rfl rfl

theorem make_undo_plain (keys : ZKeys) (s : GameState) (m : Move) (p : Piece)
    (hsrc : getPiece s m.from_sq = some p) (hfrom : m.from_sq < 64) (hto : m.to_sq < 64)
    (hne : m.from_sq ≠ m.to_sq) (hturn : p.color = s.turn)
    (hpro : m.promotion.isSome = true → p.piece_type = .Pawn)
    (hplain : PlainCapOk s m p)
    (hcastle : m.is_castling = false) (hep : m.is_en_passant = false)
    (hlen : s.board.length = 64) (hfm : s.fullmove_number < 2 ^ 32) :
    ∃ s', makeMove keys m s = some s' ∧ undoMove s' = some (some m, s) := by
  cases hcap : m.captured with
  | none =>
    simp only [makeMove, hsrc, Option.bind_eq_bind, Option.some_bind, hcap, hep, hcastle,
      Bool.false_eq_true, if_false, ite_some, ite_pair, ite_update_halfmove, setPiece]
    by_cases hpt : p.piece_type = .Pawn
    · rw [if_pos hpt]
      exact ⟨_, rfl, undo_plain_generic s m p _ _ _ _ hsrc hfrom hto hne hturn hpro
        hplain hcastle hep hlen hfm⟩
    · rw [if_neg hpt]
      exact ⟨_, rfl, undo_plain_generic s m p _ _ _ _ hsrc hfrom hto hne hturn hpro
        hplain hcastle hep hlen hfm⟩
  | some ct =>
    simp only [makeMove, hsrc, Option.bind_eq_bind, Option.some_bind, hcap, hep, hcastle,
      Bool.false_eq_true, if_false, ite_some, ite_pair, ite_update_halfmove, setPiece]
    exact ⟨_, rfl, undo_plain_generic s m p _ _ _ _ hsrc hfrom hto hne hturn hpro
      hplain hcastle hep hlen hfm⟩

theorem board_restore_ep (bd : List (Option Piece)) (a b c : Nat) (d : Option Piece)
    (va vc : Option Piece)
    (hab : a ≠ b) (hac : a ≠ c) (hbc : b ≠ c)
    (ha : a < bd.length) (hb : b < bd.length) (hc : c < bd.length)
    (hav : bd.getD a none = va) (hbv : bd.getD b none = none) (hcv : bd.getD c none = vc) :
    ((((((bd.set c none).set b d).set a none).set a va).set c vc).set b none) = bd := by
  apply List.ext_getElem?
  intro j
  by_cases hjb : j = b
  · subst hjb
    rw [List.getElem?_set_self (by simpa using hb), getElem?_eq_some_getD bd j hb, hbv]
  · rw [List.getElem?_set_ne (fun h => hjb h.symm)]
    by_cases hjc : j = c
    · subst hjc
      rw [List.getElem?_set_self (by simpa using hc), getElem?_eq_some_getD bd j hc, hcv]
    · rw [List.getElem?_set_ne (fun h => hjc h.symm)]
      by_cases hja : j = a
      · subst hja
        rw [List.getElem?_set_self (by simpa using ha), getElem?_eq_some_getD bd j ha, hav]
      · rw [List.getElem?_set_ne (fun h => hja h.symm),
          List.getElem?_set_ne (fun h => hja h.symm),
          List.getElem?_set_ne (fun h => hjb h.symm),
          List.getElem?_set_ne (fun h => hjc h.symm)]

theorem undo_ep_generic (s : GameState) (m : Move) (p : Piece)
    (CR : CastlingRights) (EP : Option Nat) (HM H : Nat)
    (hsrc : getPiece s m.from_sq = some p) (hfrom : m.from_sq < 64) (hto : m.to_sq < 64)
    (hne : m.from_sq ≠ m.to_sq) (hturn : p.color = s.turn)
    (hpro : m.promotion.isSome = true → p.piece_type = .Pawn)
    (hepc : EPCapOk s m p)
    (hcastle : m.is_castling = false) (hep : m.is_en_passant = true)
    (hlen : s.board.length = 64) (hfm : s.fullmove_number < 2 ^ 32) :
    undoMove { board := (((s.board.set (epCapSq m p) none).set m.to_sq
                   (some (destPiece m p))).set m.from_sq none),
               turn := p.color.opposite,
               castling_rights := CR, en_passant_target := EP, halfmove_clock := HM,
               fullmove_number := newFullmove p s.fullmove_number,
               move_history := m :: s.move_history,
               irreversible_history :=
                 { castling_rights := s.castling_rights,
                   en_passant_target := s.en_passant_target,
                   halfmove_clock := s.halfmove_clock,
                   zobrist_hash := s.zobrist_hash } :: s.irreversible_history,
               position_history := s.zobrist_hash :: s.position_history,
               zobrist_hash := H } = some (some m, s) := by
  obtain ⟨hcap, hW8, hcsl, hcsf, hcst, hcsp, hton⟩ := hepc
  have hsrc' : s.board.getD m.from_sq none = some p := hsrc
  have hfrom_len : m.from_sq < s.board.length := hlen ▸ hfrom
  have hto_len : m.to_sq < s.board.length := hlen ▸ hto
  have hcs_len : epCapSq m p < s.board.length := hlen ▸ hcsl
  have hdcolor : (destPiece m p).color = p.color := by
    unfold destPiece; cases m.promotion <;> rfl
  have hcap_eq : epCapSq m (destPiece m p) = epCapSq m p := by
    unfold epCapSq; rw [hdcolor]
  have hgetdest : (((s.board.set (epCapSq m p) none).set m.to_sq
        (some (destPiece m p))).set m.from_sq none).getD m.to_sq none
      = some (destPiece m p) := by
    rw [listGetD_set_ne _ _ hne,
      listGetD_set_self _ _ _ (by simpa using hto_len)]
  have horig : (if m.promotion.isSome then (⟨.Pawn, (destPiece m p).color⟩ : Piece)
      else destPiece m p) = p := by
    cases hpr : m.promotion with
    | none => simp [destPiece, hpr]
    | some pt =>
      have := hpro (by simp [hpr])
      simp only [hpr, Option.isSome_some, if_pos]
      rw [hdcolor]
      cases p
      simp_all
  have hg1 : ¬((destPiece m p).color = .White ∧ m.to_sq < 8) := by
    rw [hdcolor]
    rintro ⟨hw, hlt⟩
    exact absurd hlt (not_lt.mpr (hW8 hw))
  have hg1' : ¬(p.color = .White ∧ m.to_sq < 8) := hdcolor ▸ hg1
  have hg2 : ¬(64 ≤ epCapSq m (destPiece m p)) := by
    rw [hcap_eq]
    exact not_le.mpr hcsl
  have hg2' : ¬(64 ≤ epCapSq m p) := hcap_eq ▸ hg2
  have horig' : (if m.promotion.isSome then (⟨.Pawn, p.color⟩ : Piece)
      else destPiece m p) = p := hdcolor ▸ horig
  simp only [undoMove, getPiece, hgetdest, horig, horig', hcastle, hep, Bool.false_eq_true,
    if_false, List.tail_cons, hcap, hg1, hg1', hg2, hg2', hcap_eq, hdcolor, if_true, setPiece]
  have hb := board_restore_ep s.board m.from_sq m.to_sq (epCapSq m p)
    (some (destPiece m p)) (some p) (some ⟨.Pawn, p.color.opposite⟩)
    hne (fun h => hcsf h.symm) (fun h => hcst h.symm)
    hfrom_len hto_len hcs_len hsrc' hton hcsp
  simp only [Option.some.injEq, Prod.mk.injEq, true_and]
  by_cases hpb : p.color = .Black
  · rw [if_pos hpb]
    exact GameState.ext' hb hturn rfl rfl rfl
      (by simp only [newFullmove, if_pos hpb]; omega) rfl rfl rfl rfl
  · rw [if_neg hpb]
    exact GameState.ext' hb hturn rfl rfl rfl
      (by simp only [newFullmove, if_neg hpb]) rfl rfl rfl rfl

theorem make_undo_ep (keys : ZKeys) (s : GameState) (m : Move) (p : Piece)
    (hsrc : getPiece s m.from_sq = some p) (hfrom : m.from_sq < 64) (hto : m.to_sq < 64)
    (hne : m.from_sq ≠ m.to_sq) (hturn : p.color = s.turn)
    (hpro : m.promotion.isSome = true → p.piece_type = .Pawn)
    (hepc : EPCapOk s m p)
    (hcastle : m.is_castling = false) (hep : m.is_en_passant = true)
    (hlen : s.board.length = 64) (hfm : s.fullmove_number < 2 ^ 32) :
    ∃ s', makeMove keys m s = some s' ∧ undoMove s' = some (some m, s) := by
  have hcap := hepc.1
  have hg1 : ¬(p.color = .White ∧ m.to_sq < 8) := by
    rintro ⟨hw, hlt⟩
    exact absurd hlt (not_lt.mpr (hepc.2.1 hw))
  have hg2 : ¬(64 ≤ epCapSq m p) := not_le.mpr hepc.2.2.1
  simp only [makeMove, hsrc, Option.bind_eq_bind, Option.some_bind, hcap, hep, hcastle,
    Bool.false_eq_true, if_false, hg1, hg2, if_true, ite_some, ite_pair,
    ite_update_halfmove, setPiece]
  exact ⟨_, rfl, undo_ep_generic s m p _ _ _ _ hsrc hfrom hto hne hturn hpro
    hepc hcastle hep hlen hfm⟩

theorem board_restore_castle (bd : List (Option Piece)) (a b rf rt : Nat)
    (pc rook : Piece)
    (hab : a ≠ b) (haf : a ≠ rf) (hat : a ≠ rt) (hbf : b ≠ rf) (hbt : b ≠ rt)
    (hft : rf ≠ rt)
    (ha : a < bd.length) (hb : b < bd.length) (hf : rf < bd.length) (ht : rt < bd.length)
    (hav : bd.getD a none = some pc) (hbv : bd.getD b none = none)
    (hfv : bd.getD rf none = some rook) (htv : bd.getD rt none = none) :
    ((((((((bd.set b (some pc)).set a none).set rt (some rook)).set rf none).set a
        (some pc)).set b none).set rf (some rook)).set rt none) = bd := by
  apply List.ext_getElem?
  intro j
  by_cases hjt : j = rt
  · subst hjt
    rw [List.getElem?_set_self (by simpa using ht), getElem?_eq_some_getD bd j ht, htv]
  · rw [List.getElem?_set_ne (fun h => hjt h.symm)]
    by_cases hjf : j = rf
    · subst hjf
      rw [List.getElem?_set_self (by simpa using hf), getElem?_eq_some_getD bd j hf, hfv]
    · rw [List.getElem?_set_ne (fun h => hjf h.symm)]
      by_cases hjb : j = b
      · subst hjb
        rw [List.getElem?_set_self (by simpa using hb), getElem?_eq_some_getD bd j hb, hbv]
      · rw [List.getElem?_set_ne (fun h => hjb h.symm)]
        by_cases hja : j = a
        · subst hja
          rw [List.getElem?_set_self (by simpa using ha), getElem?_eq_some_getD bd j ha, hav]
        · rw [List.getElem?_set_ne (fun h => hja h.symm),
            List.getElem?_set_ne (fun h => hjf h.symm),
            List.getElem?_set_ne (fun h => hjt h.symm),
            List.getElem?_set_ne (fun h => hja h.symm),
            List.getElem?_set_ne (fun h => hjb h.symm)]

theorem undo_castle_generic (s : GameState) (m : Move) (p rook : Piece)
    (rf rt : Nat) (CR : CastlingRights) (EP : Option Nat) (HM H : Nat)
    (hsrc : getPiece s m.from_sq = some p) (hfrom : m.from_sq < 64) (hto : m.to_sq < 64)
    (hne : m.from_sq ≠ m.to_sq) (hturn : p.color = s.turn)
    (hcap : m.captured = none) (hprn : m.promotion = none)
    (hcastle : m.is_castling = true)
    (hrf : castleRookFrom m.to_sq p.color = rf) (hrt : castleRookTo m.to_sq p.color = rt)
    (haf : m.from_sq ≠ rf) (hat : m.from_sq ≠ rt) (hbf : m.to_sq ≠ rf)
    (hbt : m.to_sq ≠ rt) (hft : rf ≠ rt) (hflt : rf < 64) (htlt : rt < 64)
    (hton : getPiece s m.to_sq = none)
    (hrfv : getPiece s rf = some rook) (hrtv : getPiece s rt = none)
    (hlen : s.board.length = 64) (hfm : s.fullmove_number < 2 ^ 32) :
    undoMove { board := ((((s.board.set m.to_sq (some p)).set m.from_sq none).set rt
                   (some rook)).set rf none),
               turn := p.color.opposite,
               castling_rights := CR, en_passant_target := EP, halfmove_clock := HM,
               fullmove_number := newFullmove p s.fullmove_number,
               move_history := m :: s.move_history,
               irreversible_history :=
                 { castling_rights := s.castling_rights,
                   en_passant_target := s.en_passant_target,
                   halfmove_clock := s.halfmove_clock,
                   zobrist_hash := s.zobrist_hash } :: s.irreversible_history,
               position_history := s.zobrist_hash :: s.position_history,
               zobrist_hash := H } = some (some m, s) := by
  have hsrc' : s.board.getD m.from_sq none = some p := hsrc
  have hfrom_len : m.from_sq < s.board.length := hlen ▸ hfrom
  have hto_len : m.to_sq < s.board.length := hlen ▸ hto
  have hgetdest : (((((s.board.set m.to_sq (some p)).set m.from_sq none).set rt
        (some rook)).set rf none)).getD m.to_sq none = some p := by
    rw [listGetD_set_ne _ _ (fun h => hbf h.symm),
      listGetD_set_ne _ _ (fun h => hbt h.symm),
      listGetD_set_ne _ _ hne,
      listGetD_set_self _ _ _ (by simpa using hto_len)]
  have horig : (if m.promotion.isSome then (⟨.Pawn, p.color⟩ : Piece) else p) = p := by
    simp [hprn]
  have hrook2 : (((((((s.board.set m.to_sq (some p)).set m.from_sq none).set rt
        (some rook)).set rf none).set m.from_sq (some p)).set m.to_sq none)).getD rt none
      = some rook := by
    rw [listGetD_set_ne _ _ hbt, listGetD_set_ne _ _ hat,
      listGetD_set_ne _ _ hft,
      listGetD_set_self _ _ _ (by simpa using hlen ▸ htlt)]
  simp only [undoMove, getPiece, hgetdest, horig, hcastle, hcap, Bool.false_eq_true, if_false,
    if_true, List.tail_cons, setPiece, hrf, hrt, hrook2]
  have hb := board_restore_castle s.board m.from_sq m.to_sq rf rt p rook
    hne haf hat hbf hbt hft hfrom_len hto_len (hlen ▸ hflt) (hlen ▸ htlt)
    hsrc' hton hrfv hrtv
  simp only [Option.some.injEq, Prod.mk.injEq, true_and]
  by_cases hpb : p.color = .Black
  · rw [if_pos hpb]
    exact GameState.ext' hb hturn rfl rfl rfl
      (by simp only [newFullmove, if_pos hpb]; omega) rfl rfl rfl rfl
  · rw [if_neg hpb]
    exact GameState.ext' hb hturn rfl rfl rfl
      (by simp only [newFullmove, if_neg hpb]) rfl rfl rfl rfl

theorem make_undo_castle (keys : ZKeys) (s : GameState) (m : Move) (p : Piece)
    (hsrc : getPiece s m.from_sq = some p)
    (hturn : p.color = s.turn)
    (hcok : CastleOk s m p)
    (hcastle : m.is_castling = true)
    (hlen : s.board.length = 64) (hfm : s.fullmove_number < 2 ^ 32) :
    ∃ s', makeMove keys m s = some s' ∧ undoMove s' = some (some m, s) := by
  obtain ⟨hking, hcap, hepf, hprn, hconf⟩ := hcok
  have hdp : destPiece m p = p := by simp [destPiece, hprn]
  have hnotpawn : (p.piece_type = PieceType.Pawn) = False := by simp [hking]
  have hsrcD : s.board.getD m.from_sq none = some p := hsrc
  rcases hconf with ⟨hw, hf4, hside⟩ | ⟨hw, hf60, hside⟩
  · rcases hside with ⟨hto6, h5, h6, h7⟩ | ⟨hto2, h3, h2, h1, h0⟩
    · -- White kingside: from 4, to 6, rook h1 (7) → f1 (5)
      have hcrf : castleRookFrom m.to_sq p.color = 7 := by rw [hto6, hw]; rfl
      have hcrt : castleRookTo m.to_sq p.color = 5 := by rw [hto6, hw]; rfl
      have hbne : m.to_sq ≠ 7 := by rw [hto6]; decide
      have hane : m.from_sq ≠ 7 := by rw [hf4]; decide
      have hrookB : ((s.board.set m.to_sq (some p)).set m.from_sq none).getD 7 none
          = some ⟨.Rook, .White⟩ := by
        rw [listGetD_set_ne _ _ hane, listGetD_set_ne _ _ hbne]; exact h7
      simp only [makeMove, hsrc, hsrcD, Option.bind_eq_bind, Option.some_bind, hcap, hcastle,
        hnotpawn, if_false, if_true, hdp, hcrf, hcrt, setPiece, getPiece, hrookB,
        ite_some, ite_pair, ite_update_halfmove]
      refine ⟨_, rfl, ?_⟩
      have hwr : (⟨.Rook, .White⟩ : Piece) = ⟨.Rook, p.color⟩ := by rw [hw]
      exact undo_castle_generic s m p ⟨.Rook, .White⟩ 7 5 _ _ _ _ hsrc
        (by rw [hf4]; decide) (by rw [hto6]; decide)
        (by rw [hf4, hto6]; decide) hturn hcap hprn hcastle hcrf hcrt
        hane (by rw [hf4]; decide) hbne (by rw [hto6]; decide) (by decide)
        (by decide) (by decide) (hto6 ▸ h6) h7 h5 hlen hfm
    · -- White queenside: from 4, to 2, rook a1 (0) → d1 (3)
      have hcrf : castleRookFrom m.to_sq p.color = 0 := by rw [hto2, hw]; rfl
      have hcrt : castleRookTo m.to_sq p.color = 3 := by rw [hto2, hw]; rfl
      have hbne : m.to_sq ≠ 0 := by rw [hto2]; decide
      have hane : m.from_sq ≠ 0 := by rw [hf4]; decide
      have hrookB : ((s.board.set m.to_sq (some p)).set m.from_sq none).getD 0 none
          = some ⟨.Rook, .White⟩ := by
        rw [listGetD_set_ne _ _ hane, listGetD_set_ne _ _ hbne]; exact h0
      simp only [makeMove, hsrc, hsrcD, Option.bind_eq_bind, Option.some_bind, hcap, hcastle,
        hnotpawn, if_false, if_true, hdp, hcrf, hcrt, setPiece, getPiece, hrookB,
        ite_some, ite_pair, ite_update_halfmove]
      refine ⟨_, rfl, ?_⟩
      exact undo_castle_generic s m p ⟨.Rook, .White⟩ 0 3 _ _ _ _ hsrc
        (by rw [hf4]; decide) (by rw [hto2]; decide)
        (by rw [hf4, hto2]; decide) hturn hcap hprn hcastle hcrf hcrt
        hane (by rw [hf4]; decide) hbne (by rw [hto2]; decide) (by decide)
        (by decide) (by decide) (hto2 ▸ h2) h0 h3 hlen hfm
  · rcases hside with ⟨hto62, h61, h62, h63⟩ | ⟨hto58, h59, h58, h57, h56⟩
    · -- Black kingside: from 60, to 62, rook h8 (63) → f8 (61)
      have hcrf : castleRookFrom m.to_sq p.color = 63 := by rw [hto62, hw]; rfl
      have hcrt : castleRookTo m.to_sq p.color = 61 := by rw [hto62, hw]; rfl
      have hbne : m.to_sq ≠ 63 := by rw [hto62]; decide
      have hane : m.from_sq ≠ 63 := by rw [hf60]; decide
      have hrookB : ((s.board.set m.to_sq (some p)).set m.from_sq none).getD 63 none
          = some ⟨.Rook, .Black⟩ := by
        rw [listGetD_set_ne _ _ hane, listGetD_set_ne _ _ hbne]; exact h63
      simp only [makeMove, hsrc, hsrcD, Option.bind_eq_bind, Option.some_bind, hcap, hcastle,
        hnotpawn, if_false, if_true, hdp, hcrf, hcrt, setPiece, getPiece, hrookB,
        ite_some, ite_pair, ite_update_halfmove]
      refine ⟨_, rfl, ?_⟩
      exact undo_castle_generic s m p ⟨.Rook, .Black⟩ 63 61 _ _ _ _ hsrc
        (by rw [hf60]; decide) (by rw [hto62]; decide)
        (by rw [hf60, hto62]; decide) hturn hcap hprn hcastle hcrf hcrt
        hane (by rw [hf60]; decide) hbne (by rw [hto62]; decide) (by decide)
        (by decide) (by decide) (hto62 ▸ h62) h63 h61 hlen hfm
    · -- Black queenside: from 60, to 58, rook a8 (56) → d8 (59)
      have hcrf : castleRookFrom m.to_sq p.color = 56 := by rw [hto58, hw]; rfl
      have hcrt : castleRookTo m.to_sq p.color = 59 := by rw [hto58, hw]; rfl
      have hbne : m.to_sq ≠ 56 := by rw [hto58]; decide
      have hane : m.from_sq ≠ 56 := by rw [hf60]; decide
      have hrookB : ((s.board.set m.to_sq (some p)).set m.from_sq none).getD 56 none
          = some ⟨.Rook, .Black⟩ := by
        rw [listGetD_set_ne _ _ hane, listGetD_set_ne _ _ hbne]; exact h56
      simp only [makeMove, hsrc, hsrcD, Option.bind_eq_bind, Option.some_bind, hcap, hcastle,
        hnotpawn, if_false, if_true, hdp, hcrf, hcrt, setPiece, getPiece, hrookB,
        ite_some, ite_pair, ite_update_halfmove]
      refine ⟨_, rfl, ?_⟩
      exact undo_castle_generic s m p ⟨.Rook, .Black⟩ 56 59 _ _ _ _ hsrc
        (by rw [hf60]; decide) (by rw [hto58]; decide)
        (by rw [hf60, hto58]; decide) hturn hcap hprn hcastle hcrf hcrt
        hane (by rw [hf60]; decide) hbne (by rw [hto58]; decide) (by decide)
        (by decide) (by decide) (hto58 ▸ h58) h56 h59 hlen hfm

theorem make_undo (keys : ZKeys) (s : GameState) (m : Move) (p : Piece)
    (hok : MoveOk s m p) (hwf : WF s) :
    ∃ s', makeMove keys m s = some s' ∧ undoMove s' = some (some m, s) := by
  obtain ⟨hsrc, hfrom, hto, hne, hturn, hpro, hcap, hcastle, hdbl⟩ := hok
  obtain ⟨hlen, hfm, hhm⟩ := hwf
  by_cases hc : m.is_castling = true
  · exact make_undo_castle keys s m p hsrc hturn (hcastle hc) hc hlen hfm
  · have hc' : m.is_castling = false := by simpa using hc
    by_cases he : m.is_en_passant = true
    · rw [if_pos (by simp [he])] at hcap
      exact make_undo_ep keys s m p hsrc hfrom hto hne hturn hpro hcap hc' he hlen hfm
    · have he' : m.is_en_passant = false := by simpa using he
      rw [if_neg (by simp [he'])] at hcap
      exact make_undo_plain keys s m p hsrc hfrom hto hne hturn hpro hcap hc' he' hlen hfm

end Chess

namespace Chess
theorem Color.eq_opposite_of_ne {x c : Color} (h : x ≠ c) : x = c.opposite := by
  cases x <;> cases c <;> simp_all [Color.opposite]

theorem slidingWalk_ok (s : GameState) (f : Nat) (c : Color) (d : Int)
    (pt : PieceType) (hd : d ≠ 0) :
    ∀ (fuel : Nat) (toI pf : Int) (k : Nat), 1 ≤ k → toI = (f : Int) + (k : Int) * d →
      ∀ m ∈ slidingWalk s f c d pt fuel toI pf,
        m.from_sq = f ∧ m.to_sq < 64 ∧ m.to_sq ≠ f ∧ m.promotion = none ∧
        m.is_castling = false ∧ m.is_en_passant = false ∧ PlainCapOk s m ⟨pt, c⟩ := by
  intro fuel
  induction fuel with
  | zero => intro toI pf k _ _ m hm; simp [slidingWalk] at hm
  | succ n ih =>
    intro toI pf k hk htoI m hm
    have hkd : (k : Int) * d ≠ 0 :=
      mul_ne_zero (by exact_mod_cast Nat.one_le_iff_ne_zero.mp hk) hd
    rw [slidingWalk] at hm
    by_cases hv : isValidSquare toI = true
    · rw [if_pos hv] at hm
      have hv' : 0 ≤ toI ∧ toI < 64 := by
        simpa [isValidSquare] using hv
      have htn : (toI.toNat : Int) = toI := Int.toNat_of_nonneg hv'.1
      have htne : toI.toNat ≠ f := by omega
      have htlt : toI.toNat < 64 := by omega
      by_cases hw : (d = -1 ∨ d = 1) ∧ (toI % 8 - pf).natAbs ≠ 1
      · rw [if_pos hw] at hm; simp at hm
      · rw [if_neg hw] at hm
        cases hg : getPiece s toI.toNat with
        | none =>
          simp only [hg] at hm
          rcases List.mem_cons.mp hm with rfl | hm2
          · exact ⟨rfl, htlt, htne, rfl, rfl, rfl, by simp [PlainCapOk, Move.new, hg]⟩
          · exact ih (toI + d) (toI % 8) (k + 1) (by omega)
              (by push_cast; rw [htoI]; ring) m hm2
        | some piece =>
          simp only [hg] at hm
          by_cases hpc : piece.color ≠ c
          · rw [if_pos hpc] at hm
            rcases List.mem_singleton.mp hm with rfl
            refine ⟨rfl, htlt, htne, rfl, rfl, rfl, ?_⟩
            simp only [PlainCapOk, Move.with_capture, Move.new]
            rw [hg]
            have := Color.eq_opposite_of_ne hpc
            cases piece
            simp_all
          · rw [if_neg hpc] at hm
            simp at hm
    · rw [if_neg hv] at hm
      simp at hm
end Chess

namespace Chess
theorem generateSlidingMoves_ok (s : GameState) (f : Nat) (c : Color)
    (dirs : List Int) (pt : PieceType) (hd : ∀ d ∈ dirs, d ≠ 0) (m : Move)
    (hm : m ∈ generateSlidingMoves s f c dirs pt) :
    m.from_sq = f ∧ m.to_sq < 64 ∧ m.to_sq ≠ f ∧ m.promotion = none ∧
    m.is_castling = false ∧ m.is_en_passant = false ∧ PlainCapOk s m ⟨pt, c⟩ := by
  rw [generateSlidingMoves] at hm
  obtain ⟨d, hdm, hmem⟩ := List.mem_flatMap.mp hm
  exact slidingWalk_ok s f c d pt (hd d hdm) 64 ((f : Int) + d) ((f : Int) % 8) 1
    le_rfl (by push_cast; ring) m hmem

theorem stepMove_fields (s : GameState) (f : Nat) (c : Color) (pt : PieceType)
    (off : Int) (bnd : Nat) (m : Move) (hoff : off ≠ 0)
    (hm : m ∈ (if isValidSquare ((f : Int) + off)
          ∧ ((((f : Int) + off) % 8) - ((f : Nat) % 8 : Nat)).natAbs ≤ bnd then
        match getPiece s ((f : Int) + off).toNat with
        | none => [Move.new f ((f : Int) + off).toNat pt]
        | some piece =>
          if piece.color ≠ c then
            [(Move.new f ((f : Int) + off).toNat pt).with_capture piece.piece_type]
          else []
      else [])) :
    m.from_sq = f ∧ m.to_sq < 64 ∧ m.to_sq ≠ f ∧ m.promotion = none ∧
    m.is_castling = false ∧ m.is_en_passant = false ∧ PlainCapOk s m ⟨pt, c⟩ := by
  by_cases hc : isValidSquare ((f : Int) + off)
      ∧ ((((f : Int) + off) % 8) - ((f : Nat) % 8 : Nat)).natAbs ≤ bnd
  · rw [if_pos hc] at hm
    have hv' : 0 ≤ (f : Int) + off ∧ (f : Int) + off < 64 := by
      simpa [isValidSquare] using hc.1
    have htn : ((((f : Int) + off).toNat : Int)) = (f : Int) + off :=
      Int.toNat_of_nonneg hv'.1
    have htne : ((f : Int) + off).toNat ≠ f := by omega
    have htlt : ((f : Int) + off).toNat < 64 := by omega
    cases hg : getPiece s ((f : Int) + off).toNat with
    | none =>
      simp only [hg] at hm
      rcases List.mem_singleton.mp hm with rfl
      exact ⟨rfl, htlt, htne, rfl, rfl, rfl, by simp [PlainCapOk, Move.new, hg]⟩
    | some piece =>
      simp only [hg] at hm
      by_cases hpc : piece.color ≠ c
      · rw [if_pos hpc] at hm
        rcases List.mem_singleton.mp hm with rfl
        refine ⟨rfl, htlt, htne, rfl, rfl, rfl, ?_⟩
        simp only [PlainCapOk, Move.with_capture, Move.new]
        rw [hg]
        have := Color.eq_opposite_of_ne hpc
        cases piece
        simp_all
      · rw [if_neg hpc] at hm
        simp at hm
  · rw [if_neg hc] at hm
    simp at hm
end Chess

namespace Chess
theorem generateKnightMoves_ok (s : GameState) (f : Nat) (c : Color) (m : Move)
    (hm : m ∈ generateKnightMoves s f c) :
    m.from_sq = f ∧ m.to_sq < 64 ∧ m.to_sq ≠ f ∧ m.promotion = none ∧
    m.is_castling = false ∧ m.is_en_passant = false ∧ PlainCapOk s m ⟨.Knight, c⟩ := by
  rw [generateKnightMoves] at hm
  obtain ⟨off, hoffmem, hmem⟩ := List.mem_flatMap.mp hm
  have hall : ∀ x ∈ ([(-17 : Int), -15, -10, -6, 6, 10, 15, 17] : List Int), x ≠ 0 := by
    decide
  exact stepMove_fields s f c .Knight off 2 m (hall off hoffmem) hmem

theorem generateKingMovesA_ok (att : GameState → Nat → Color → Bool)
    (s : GameState) (f : Nat) (c : Color) (m : Move)
    (hm : m ∈ generateKingMovesA att s f c) :
    (m.from_sq = f ∧ m.to_sq < 64 ∧ m.to_sq ≠ f ∧ m.promotion = none ∧
      m.is_castling = false ∧ m.is_en_passant = false ∧ PlainCapOk s m ⟨.King, c⟩) ∨
    (m.from_sq = f ∧ m.to_sq < 64 ∧ m.to_sq ≠ f ∧ m.is_castling = true ∧
      getPiece s m.to_sq = none ∧ CastleOk s m ⟨.King, c⟩) := by
  rw [generateKingMovesA] at hm
  rcases List.mem_append.mp hm with hs | hc2
  · left
    obtain ⟨off, hoffmem, hmem⟩ := List.mem_flatMap.mp hs
    have hall : ∀ x ∈ ([(-9 : Int), -8, -7, -1, 1, 7, 8, 9] : List Int), x ≠ 0 := by
      decide
    exact stepMove_fields s f c .King off 1 m (hall off hoffmem) hmem
  · right
    by_cases hW : c = .White ∧ f = 4
    · rw [if_pos hW] at hc2
      rcases List.mem_append.mp hc2 with hks | hqs
      · by_cases hcond : s.castling_rights.white_kingside = true
            ∧ getPiece s 5 = none ∧ getPiece s 6 = none
            ∧ getPiece s 7 = some ⟨.Rook, .White⟩
        · rw [if_pos hcond] at hks
          by_cases hatt : att s 4 .Black = false ∧ att s 5 .Black = false
              ∧ att s 6 .Black = false
          · rw [if_pos hatt] at hks
            rcases List.mem_singleton.mp hks with rfl
            refine ⟨hW.2.symm, by decide, by rw [hW.2]; decide, rfl,
              hcond.2.2.1, ?_⟩
            exact ⟨rfl, rfl, rfl, rfl, Or.inl ⟨hW.1, rfl, Or.inl ⟨rfl,
              hcond.2.1, hcond.2.2.1, hcond.2.2.2⟩⟩⟩
          · rw [if_neg hatt] at hks; simp at hks
        · rw [if_neg hcond] at hks; simp at hks
      · by_cases hcond : s.castling_rights.white_queenside = true
            ∧ getPiece s 3 = none ∧ getPiece s 2 = none ∧ getPiece s 1 = none
            ∧ getPiece s 0 = some ⟨.Rook, .White⟩
        · rw [if_pos hcond] at hqs
          by_cases hatt : att s 4 .Black = false ∧ att s 3 .Black = false
              ∧ att s 2 .Black = false
          · rw [if_pos hatt] at hqs
            rcases List.mem_singleton.mp hqs with rfl
            refine ⟨hW.2.symm, by decide, by rw [hW.2]; decide, rfl,
              hcond.2.2.1, ?_⟩
            exact ⟨rfl, rfl, rfl, rfl, Or.inl ⟨hW.1, rfl, Or.inr ⟨rfl,
              hcond.2.1, hcond.2.2.1, hcond.2.2.2.1, hcond.2.2.2.2⟩⟩⟩
          · rw [if_neg hatt] at hqs; simp at hqs
        · rw [if_neg hcond] at hqs; simp at hqs
    · rw [if_neg hW] at hc2
      by_cases hB : c = .Black ∧ f = 60
      · rw [if_pos hB] at hc2
        rcases List.mem_append.mp hc2 with hks | hqs
        · by_cases hcond : s.castling_rights.black_kingside = true
              ∧ getPiece s 61 = none ∧ getPiece s 62 = none
              ∧ getPiece s 63 = some ⟨.Rook, .Black⟩
          · rw [if_pos hcond] at hks
            by_cases hatt : att s 60 .White = false ∧ att s 61 .White = false
                ∧ att s 62 .White = false
            · rw [if_pos hatt] at hks
              rcases List.mem_singleton.mp hks with rfl
              refine ⟨hB.2.symm, by decide, by rw [hB.2]; decide, rfl,
                hcond.2.2.1, ?_⟩
              exact ⟨rfl, rfl, rfl, rfl, Or.inr ⟨hB.1, rfl, Or.inl ⟨rfl,
                hcond.2.1, hcond.2.2.1, hcond.2.2.2⟩⟩⟩
            · rw [if_neg hatt] at hks; simp at hks
          · rw [if_neg hcond] at hks; simp at hks
        · by_cases hcond : s.castling_rights.black_queenside = true
              ∧ getPiece s 59 = none ∧ getPiece s 58 = none ∧ getPiece s 57 = none
              ∧ getPiece s 56 = some ⟨.Rook, .Black⟩
          · rw [if_pos hcond] at hqs
            by_cases hatt : att s 60 .White = false ∧ att s 59 .White = false
                ∧ att s 58 .White = false
            · rw [if_pos hatt] at hqs
              rcases List.mem_singleton.mp hqs with rfl
              refine ⟨hB.2.symm, by decide, by rw [hB.2]; decide, rfl,
                hcond.2.2.1, ?_⟩
              exact ⟨rfl, rfl, rfl, rfl, Or.inr ⟨hB.1, rfl, Or.inr ⟨rfl,
                hcond.2.1, hcond.2.2.1, hcond.2.2.2.1, hcond.2.2.2.2⟩⟩⟩
            · rw [if_neg hatt] at hqs; simp at hqs
          · rw [if_neg hcond] at hqs; simp at hqs
      · rw [if_neg hB] at hc2
        simp at hc2
end Chess

namespace Chess
/-- Membership facts for one color's pawn generator, with the color's
direction and rank constants already concrete. -/
theorem generatePawnMoves_ok (s : GameState) (f : Nat) (c : Color) (m : Move)
    (hct : c = s.turn) (hepi : EPInv s)
    (hm : m ∈ generatePawnMoves s f c) (hf : f < 64) :
    m.from_sq = f ∧ m.to_sq < 64 ∧ m.to_sq ≠ f ∧ m.is_castling = false ∧
    DblOk s m ⟨.Pawn, c⟩ ∧
    ((m.is_en_passant = false ∧ PlainCapOk s m ⟨.Pawn, c⟩) ∨
     (m.is_en_passant = true ∧ EPCapOk s m ⟨.Pawn, c⟩)) := by
  cases c with
  | White =>
    rw [generatePawnMoves] at hm
    simp only [reduceCtorEq, reduceIte, if_true, if_false] at hm
    rcases List.mem_append.mp hm with hfc | hep
    · rcases List.mem_append.mp hfc with hfw | hcp
      · -- forward pushes
        by_cases hcond : isValidSquare ((f : Int) + 8)
            ∧ getPiece s ((f : Int) + 8).toNat = none
        · rw [if_pos hcond] at hfw
          have hv' : 0 ≤ (f : Int) + 8 ∧ (f : Int) + 8 < 64 := by
            simpa [isValidSquare] using hcond.1
          rcases List.mem_append.mp hfw with hpush | hdbl
          · have hfields : m.from_sq = f ∧ m.to_sq = ((f : Int) + 8).toNat ∧
                m.is_castling = false ∧ m.is_en_passant = false ∧ m.captured = none ∧
                m.piece = PieceType.Pawn := by
              by_cases hpr : ((f : Int) + 8).toNat / 8 = 7
              · rw [if_pos hpr] at hpush
                obtain ⟨pp, _, rfl⟩ := List.mem_map.mp hpush
                exact ⟨rfl, rfl, rfl, rfl, rfl, rfl⟩
              · rw [if_neg hpr] at hpush
                rcases List.mem_singleton.mp hpush with rfl
                exact ⟨rfl, rfl, rfl, rfl, rfl, rfl⟩
            obtain ⟨h1, h2, h3, h4, h5, h6⟩ := hfields
            clear hm hfc hfw hpush
            refine ⟨h1, ?_, ?_, h3, ?_, ?_⟩
            · rw [h2]; omega
            · rw [h2]; omega
            · intro _ h16
              exfalso
              rw [h1, h2] at h16
              omega
            · exact Or.inl ⟨h4, by
                simp only [PlainCapOk, h5, h2]
                exact hcond.2⟩
          · by_cases hrk : f / 8 = 1
            · rw [if_pos hrk] at hdbl
              by_cases hcond2 : isValidSquare ((f : Int) + 2 * 8)
                  ∧ getPiece s ((f : Int) + 2 * 8).toNat = none
              · rw [if_pos hcond2] at hdbl
                rcases List.mem_singleton.mp hdbl with rfl
                have hv2 : 0 ≤ (f : Int) + 2 * 8 ∧ (f : Int) + 2 * 8 < 64 := by
                  simpa [isValidSquare] using hcond2.1
                clear hm hfc hfw hdbl
                simp only [DblOk, PlainCapOk, Move.new, reduceCtorEq, reduceIte,
                  if_true, if_false]
                refine ⟨by trivial, by omega, by omega, by trivial, ?_, ?_⟩
                · intro _ _
                  refine ⟨?_, by trivial, by trivial, by trivial, ?_, ?_⟩
                  · rw [show (f + ((f : Int) + 2 * 8).toNat) / 2 = ((f : Int) + 8).toNat
                      by omega]
                    exact hcond.2
                  · intro _
                    exact ⟨by omega, hrk⟩
                  · intro hcb
                    exact hcb.elim
                · exact Or.inl ⟨by trivial, hcond2.2⟩
              · rw [if_neg hcond2] at hdbl; simp at hdbl
            · rw [if_neg hrk] at hdbl; simp at hdbl
        · rw [if_neg hcond] at hfw; simp at hfw
      · -- diagonal captures
        obtain ⟨off, hoffmem, hmem⟩ := List.mem_flatMap.mp hcp
        have hofftwo : off = 8 - 1 ∨ off = 8 + 1 := by
          rcases List.mem_cons.mp hoffmem with h | h
          · exact Or.inl h
          · exact Or.inr (List.mem_singleton.mp h)
        by_cases hcond : isValidSquare ((f : Int) + off)
            ∧ ((((f : Int) + off) % 8) - ((f % 8 : Nat) : Int)).natAbs = 1
        · rw [if_pos hcond] at hmem
          have hv' : 0 ≤ (f : Int) + off ∧ (f : Int) + off < 64 := by
            simpa [isValidSquare] using hcond.1
          cases hg : getPiece s ((f : Int) + off).toNat with
          | none => simp [hg] at hmem
          | some target =>
            simp only [hg] at hmem
            by_cases htc : target.color ≠ Color.White
            · rw [if_pos htc] at hmem
              have htgt : getPiece s ((f : Int) + off).toNat
                  = some ⟨target.piece_type, Color.White.opposite⟩ := by
                rw [hg]
                have := Color.eq_opposite_of_ne htc
                cases target
                simp_all
              have hfields : m.from_sq = f ∧ m.to_sq = ((f : Int) + off).toNat ∧
                  m.is_castling = false ∧ m.is_en_passant = false ∧
                  m.captured = some target.piece_type := by
                by_cases hpr : ((f : Int) + off).toNat / 8 = 7
                · rw [if_pos hpr] at hmem
                  obtain ⟨pp, _, rfl⟩ := List.mem_map.mp hmem
                  exact ⟨rfl, rfl, rfl, rfl, rfl⟩
                · rw [if_neg hpr] at hmem
                  rcases List.mem_singleton.mp hmem with rfl
                  exact ⟨rfl, rfl, rfl, rfl, rfl⟩
              obtain ⟨h1, h2, h3, h4, h5⟩ := hfields
              clear hm hfc hcp hoffmem hmem
              refine ⟨h1, ?_, ?_, h3, ?_, ?_⟩
              · rw [h2]; omega
              · rw [h2]; rcases hofftwo with rfl | rfl <;> omega
              · intro _ h16
                exfalso
                rw [h1, h2] at h16
                rcases hofftwo with rfl | rfl <;> omega
              · exact Or.inl ⟨h4, by
                  simp only [PlainCapOk, h5, h2]
                  exact htgt⟩
            · rw [if_neg htc] at hmem; simp at hmem
        · rw [if_neg hcond] at hmem; simp at hmem
    · -- en passant
      cases hept : s.en_passant_target with
      | none => simp [hept] at hep
      | some t =>
        simp only [hept] at hep
        by_cases hrk : f / 8 = 4
        · rw [if_pos hrk] at hep
          obtain ⟨off, hoffmem, hmem⟩ := List.mem_flatMap.mp hep
          have hofftwo : off = 8 - 1 ∨ off = 8 + 1 := by
            rcases List.mem_cons.mp hoffmem with h | h
            · exact Or.inl h
            · exact Or.inr (List.mem_singleton.mp h)
          by_cases hcond : isValidSquare ((f : Int) + off) ∧ ((f : Int) + off).toNat = t
          · rw [if_pos hcond] at hmem
            rcases List.mem_singleton.mp hmem with rfl
            have hv' : 0 ≤ (f : Int) + off ∧ (f : Int) + off < 64 := by
              simpa [isValidSquare] using hcond.1
            have ht := (hepi t hept).1 hct.symm
            have hteq : ((f : Int) + off).toNat = t := hcond.2
            clear hm hep hoffmem hmem
            simp only [DblOk, EPCapOk, epCapSq, Color.opposite, Move.with_en_passant,
              Move.with_capture, Move.new, reduceCtorEq, reduceIte, if_true, if_false]
            refine ⟨by trivial, by omega, by rcases hofftwo with rfl | rfl <;> omega,
              by trivial, ?_, ?_⟩
            · intro _ h16
              exfalso
              rcases hofftwo with rfl | rfl <;> omega
            · refine Or.inr ⟨by trivial, by trivial, fun _ => ?_, ?_, ?_, ?_, ?_, ?_⟩
              · rcases hofftwo with rfl | rfl <;> omega
              · omega
              · rcases hofftwo with rfl | rfl <;> omega
              · rcases hofftwo with rfl | rfl <;> omega
              · rw [show ((f : Int) + off).toNat - 8 = t - 8 by omega]
                exact ht.2.2.2
              · rw [show ((f : Int) + off).toNat = t by omega]
                exact ht.2.2.1
          · rw [if_neg hcond] at hmem; simp at hmem
        · rw [if_neg hrk] at hep; simp at hep
  | Black =>
    rw [generatePawnMoves] at hm
    simp only [reduceCtorEq, reduceIte, if_true, if_false] at hm
    rcases List.mem_append.mp hm with hfc | hep
    · rcases List.mem_append.mp hfc with hfw | hcp
      · by_cases hcond : isValidSquare ((f : Int) + -8)
            ∧ getPiece s ((f : Int) + -8).toNat = none
        · rw [if_pos hcond] at hfw
          have hv' : 0 ≤ (f : Int) + -8 ∧ (f : Int) + -8 < 64 := by
            simpa [isValidSquare] using hcond.1
          rcases List.mem_append.mp hfw with hpush | hdbl
          · have hfields : m.from_sq = f ∧ m.to_sq = ((f : Int) + -8).toNat ∧
                m.is_castling = false ∧ m.is_en_passant = false ∧ m.captured = none ∧
                m.piece = PieceType.Pawn := by
              by_cases hpr : ((f : Int) + -8).toNat / 8 = 0
              · rw [if_pos hpr] at hpush
                obtain ⟨pp, _, rfl⟩ := List.mem_map.mp hpush
                exact ⟨rfl, rfl, rfl, rfl, rfl, rfl⟩
              · rw [if_neg hpr] at hpush
                rcases List.mem_singleton.mp hpush with rfl
                exact ⟨rfl, rfl, rfl, rfl, rfl, rfl⟩
            obtain ⟨h1, h2, h3, h4, h5, h6⟩ := hfields
            clear hm hfc hfw hpush
            refine ⟨h1, ?_, ?_, h3, ?_, ?_⟩
            · rw [h2]; omega
            · rw [h2]; omega
            · intro _ h16
              exfalso
              rw [h1, h2] at h16
              omega
            · exact Or.inl ⟨h4, by
                simp only [PlainCapOk, h5, h2]
                exact hcond.2⟩
          · by_cases hrk : f / 8 = 6
            · rw [if_pos hrk] at hdbl
              by_cases hcond2 : isValidSquare ((f : Int) + 2 * -8)
                  ∧ getPiece s ((f : Int) + 2 * -8).toNat = none
              · rw [if_pos hcond2] at hdbl
                rcases List.mem_singleton.mp hdbl with rfl
                have hv2 : 0 ≤ (f : Int) + 2 * -8 ∧ (f : Int) + 2 * -8 < 64 := by
                  simpa [isValidSquare] using hcond2.1
                clear hm hfc hfw hdbl
                simp only [DblOk, PlainCapOk, Move.new, reduceCtorEq, reduceIte,
                  if_true, if_false]
                refine ⟨by trivial, by omega, by omega, by trivial, ?_, ?_⟩
                · intro _ _
                  refine ⟨?_, by trivial, by trivial, by trivial, ?_, ?_⟩
                  · rw [show (f + ((f : Int) + 2 * -8).toNat) / 2 = ((f : Int) + -8).toNat
                      by omega]
                    exact hcond.2
                  · intro hcw
                    exact hcw.elim
                  · intro _
                    exact ⟨by omega, hrk⟩
                · exact Or.inl ⟨by trivial, hcond2.2⟩
              · rw [if_neg hcond2] at hdbl; simp at hdbl
            · rw [if_neg hrk] at hdbl; simp at hdbl
        · rw [if_neg hcond] at hfw; simp at hfw
      · obtain ⟨off, hoffmem, hmem⟩ := List.mem_flatMap.mp hcp
        have hofftwo : off = -8 - 1 ∨ off = -8 + 1 := by
          rcases List.mem_cons.mp hoffmem with h | h
          · exact Or.inl h
          · exact Or.inr (List.mem_singleton.mp h)
        by_cases hcond : isValidSquare ((f : Int) + off)
            ∧ ((((f : Int) + off) % 8) - ((f % 8 : Nat) : Int)).natAbs = 1
        · rw [if_pos hcond] at hmem
          have hv' : 0 ≤ (f : Int) + off ∧ (f : Int) + off < 64 := by
            simpa [isValidSquare] using hcond.1
          cases hg : getPiece s ((f : Int) + off).toNat with
          | none => simp [hg] at hmem
          | some target =>
            simp only [hg] at hmem
            by_cases htc : target.color ≠ Color.Black
            · rw [if_pos htc] at hmem
              have htgt : getPiece s ((f : Int) + off).toNat
                  = some ⟨target.piece_type, Color.Black.opposite⟩ := by
                rw [hg]
                have := Color.eq_opposite_of_ne htc
                cases target
                simp_all
              have hfields : m.from_sq = f ∧ m.to_sq = ((f : Int) + off).toNat ∧
                  m.is_castling = false ∧ m.is_en_passant = false ∧
                  m.captured = some target.piece_type := by
                by_cases hpr : ((f : Int) + off).toNat / 8 = 0
                · rw [if_pos hpr] at hmem
                  obtain ⟨pp, _, rfl⟩ := List.mem_map.mp hmem
                  exact ⟨rfl, rfl, rfl, rfl, rfl⟩
                · rw [if_neg hpr] at hmem
                  rcases List.mem_singleton.mp hmem with rfl
                  exact ⟨rfl, rfl, rfl, rfl, rfl⟩
              obtain ⟨h1, h2, h3, h4, h5⟩ := hfields
              clear hm hfc hcp hoffmem hmem
              refine ⟨h1, ?_, ?_, h3, ?_, ?_⟩
              · rw [h2]; omega
              · rw [h2]; rcases hofftwo with rfl | rfl <;> omega
              · intro _ h16
                exfalso
                rw [h1, h2] at h16
                rcases hofftwo with rfl | rfl <;> omega
              · exact Or.inl ⟨h4, by
                  simp only [PlainCapOk, h5, h2]
                  exact htgt⟩
            · rw [if_neg htc] at hmem; simp at hmem
        · rw [if_neg hcond] at hmem; simp at hmem
    · cases hept : s.en_passant_target with
      | none => simp [hept] at hep
      | some t =>
        simp only [hept] at hep
        by_cases hrk : f / 8 = 3
        · rw [if_pos hrk] at hep
          obtain ⟨off, hoffmem, hmem⟩ := List.mem_flatMap.mp hep
          have hofftwo : off = -8 - 1 ∨ off = -8 + 1 := by
            rcases List.mem_cons.mp hoffmem with h | h
            · exact Or.inl h
            · exact Or.inr (List.mem_singleton.mp h)
          by_cases hcond : isValidSquare ((f : Int) + off) ∧ ((f : Int) + off).toNat = t
          · rw [if_pos hcond] at hmem
            rcases List.mem_singleton.mp hmem with rfl
            have hv' : 0 ≤ (f : Int) + off ∧ (f : Int) + off < 64 := by
              simpa [isValidSquare] using hcond.1
            have ht := (hepi t hept).2 hct.symm
            have hteq : ((f : Int) + off).toNat = t := hcond.2
            clear hm hep hoffmem hmem
            simp only [DblOk, EPCapOk, epCapSq, Color.opposite, Move.with_en_passant,
              Move.with_capture, Move.new, reduceCtorEq, reduceIte, if_true, if_false]
            refine ⟨by trivial, by omega, by rcases hofftwo with rfl | rfl <;> omega,
              by trivial, ?_, ?_⟩
            · intro _ h16
              exfalso
              rcases hofftwo with rfl | rfl <;> omega
            · refine Or.inr ⟨by trivial, by trivial, fun hcw => hcw.elim, ?_, ?_, ?_, ?_, ?_⟩
              · omega
              · rcases hofftwo with rfl | rfl <;> omega
              · omega
              · rw [show ((f : Int) + off).toNat + 8 = t + 8 by omega]
                exact ht.2.2.2
              · rw [show ((f : Int) + off).toNat = t by omega]
                exact ht.2.2.1
          · rw [if_neg hcond] at hmem; simp at hmem
        · rw [if_neg hrk] at hep; simp at hep
end Chess

namespace Chess
/-- The explicit fields of the state `make_move` produces on a plain
(non-castling, non-en-passant) move. -/
theorem makeMove_plain_fields (keys : ZKeys) (s : GameState) (m : Move) (p : Piece)
    (hsrc : getPiece s m.from_sq = some p)
    (hcastle : m.is_castling = false) (hep : m.is_en_passant = false) (s' : GameState)
    (hmk : makeMove keys m s = some s') :
    s'.board = (s.board.set m.to_sq (some (destPiece m p))).set m.from_sq none ∧
    s'.turn = p.color.opposite ∧
    s'.en_passant_target = newEpTarget m p ∧
    s'.castling_rights = updatedCastlingRights m p s.castling_rights ∧
    s'.halfmove_clock = (if m.captured.isSome ∨ p.piece_type = .Pawn then 0
      else (s.halfmove_clock + 1) % 2 ^ 32) ∧
    s'.fullmove_number = newFullmove p s.fullmove_number ∧
    s'.move_history = m :: s.move_history ∧
    s'.irreversible_history = ⟨s.castling_rights, s.en_passant_target, s.halfmove_clock,
      s.zobrist_hash⟩ :: s.irreversible_history ∧
    s'.position_history = s.zobrist_hash :: s.position_history ∧
    s'.zobrist_hash = s.zobrist_hash ^^^ keys.pieces (pieceToIndex p) m.from_sq
      ^^^ (match m.captured with
           | some ct => keys.pieces (pieceToIndex (⟨ct, p.color.opposite⟩ : Piece)) m.to_sq
           | none => 0)
      ^^^ keys.pieces (pieceToIndex (destPiece m p)) m.to_sq
      ^^^ castlingFlagsHash keys s.castling_rights
      ^^^ castlingFlagsHash keys (updatedCastlingRights m p s.castling_rights)
      ^^^ epTerm keys s.en_passant_target
      ^^^ epTerm keys (newEpTarget m p)
      ^^^ keys.side_to_move := by
  cases hcap : m.captured with
  | none =>
    by_cases hpt : p.piece_type = .Pawn
    · simp only [makeMove, hsrc, Option.bind_eq_bind, Option.some_bind, hcap, hep, hcastle,
        hpt, Bool.false_eq_true, if_false, if_true, ite_some, ite_pair, ite_update_halfmove,
        setPiece, Option.some.injEq] at hmk
      subst hmk
      refine ⟨rfl, rfl, rfl, rfl, by simp [hpt], rfl, rfl, rfl, rfl, by simp⟩
    · simp only [makeMove, hsrc, Option.bind_eq_bind, Option.some_bind, hcap, hep, hcastle,
        hpt, Bool.false_eq_true, if_false, if_true, ite_some, ite_pair, ite_update_halfmove,
        setPiece, Option.some.injEq] at hmk
      subst hmk
      refine ⟨rfl, rfl, rfl, rfl, by simp [hpt], rfl, rfl, rfl, rfl, by simp⟩
  | some ct =>
    simp only [makeMove, hsrc, Option.bind_eq_bind, Option.some_bind, hcap, hep, hcastle,
      Bool.false_eq_true, if_false, ite_some, ite_pair, ite_update_halfmove,
      setPiece, Option.some.injEq] at hmk
    subst hmk
    refine ⟨rfl, rfl, rfl, rfl, by simp, rfl, rfl, rfl, rfl, by simp⟩
end Chess

namespace Chess
/-- The explicit fields of the state `make_move` produces on an en-passant
capture. -/
theorem makeMove_ep_fields (keys : ZKeys) (s : GameState) (m : Move) (p : Piece)
    (hsrc : getPiece s m.from_sq = some p) (hepc : EPCapOk s m p)
    (hcastle : m.is_castling = false) (hep : m.is_en_passant = true) (s' : GameState)
    (hmk : makeMove keys m s = some s') :
    s'.board = ((s.board.set (epCapSq m p) none).set m.to_sq
        (some (destPiece m p))).set m.from_sq none ∧
    s'.turn = p.color.opposite ∧
    s'.en_passant_target = newEpTarget m p ∧
    s'.castling_rights = updatedCastlingRights m p s.castling_rights ∧
    s'.halfmove_clock = 0 ∧
    s'.fullmove_number = newFullmove p s.fullmove_number ∧
    s'.move_history = m :: s.move_history ∧
    s'.irreversible_history = ⟨s.castling_rights, s.en_passant_target, s.halfmove_clock,
      s.zobrist_hash⟩ :: s.irreversible_history ∧
    s'.position_history = s.zobrist_hash :: s.position_history ∧
    s'.zobrist_hash = s.zobrist_hash ^^^ keys.pieces (pieceToIndex p) m.from_sq
      ^^^ keys.pieces (pieceToIndex (⟨.Pawn, p.color.opposite⟩ : Piece)) (epCapSq m p)
      ^^^ keys.pieces (pieceToIndex (destPiece m p)) m.to_sq
      ^^^ castlingFlagsHash keys s.castling_rights
      ^^^ castlingFlagsHash keys (updatedCastlingRights m p s.castling_rights)
      ^^^ epTerm keys s.en_passant_target
      ^^^ epTerm keys (newEpTarget m p)
      ^^^ keys.side_to_move := by
  have hcap := hepc.1
  have hg1 : ¬(p.color = .White ∧ m.to_sq < 8) := by
    rintro ⟨hw, hlt⟩
    exact absurd hlt (not_lt.mpr (hepc.2.1 hw))
  have hg2 : ¬(64 ≤ epCapSq m p) := not_le.mpr hepc.2.2.1
  simp only [makeMove, hsrc, Option.bind_eq_bind, Option.some_bind, hcap, hep, hcastle,
    Bool.false_eq_true, if_false, hg1, hg2, if_true, ite_some, ite_pair,
    ite_update_halfmove, setPiece, Option.some.injEq] at hmk
  subst hmk
  exact ⟨rfl, rfl, rfl, rfl, rfl, rfl, rfl, rfl, rfl, rfl⟩
end Chess

namespace Chess
/-- The explicit fields of the state `make_move` produces on a castling
move. -/
theorem makeMove_castle_fields (keys : ZKeys) (s : GameState) (m : Move) (p : Piece)
    (hsrc : getPiece s m.from_sq = some p) (hcok : CastleOk s m p)
    (hcastle : m.is_castling = true) (s' : GameState)
    (hmk : makeMove keys m s = some s') :
    s'.board = (((s.board.set m.to_sq (some p)).set m.from_sq none).set
        (castleRookTo m.to_sq p.color) (some (⟨.Rook, p.color⟩ : Piece))).set
        (castleRookFrom m.to_sq p.color) none ∧
    s'.turn = p.color.opposite ∧
    s'.en_passant_target = newEpTarget m p ∧
    s'.castling_rights = updatedCastlingRights m p s.castling_rights ∧
    s'.halfmove_clock = (s.halfmove_clock + 1) % 2 ^ 32 ∧
    s'.fullmove_number = newFullmove p s.fullmove_number ∧
    s'.move_history = m :: s.move_history ∧
    s'.irreversible_history = ⟨s.castling_rights, s.en_passant_target, s.halfmove_clock,
      s.zobrist_hash⟩ :: s.irreversible_history ∧
    s'.position_history = s.zobrist_hash :: s.position_history ∧
    s'.zobrist_hash = s.zobrist_hash ^^^ keys.pieces (pieceToIndex p) m.from_sq
      ^^^ keys.pieces (pieceToIndex p) m.to_sq
      ^^^ keys.pieces (pieceToIndex (⟨.Rook, p.color⟩ : Piece))
            (castleRookFrom m.to_sq p.color)
      ^^^ keys.pieces (pieceToIndex (⟨.Rook, p.color⟩ : Piece))
            (castleRookTo m.to_sq p.color)
      ^^^ castlingFlagsHash keys s.castling_rights
      ^^^ castlingFlagsHash keys (updatedCastlingRights m p s.castling_rights)
      ^^^ epTerm keys s.en_passant_target
      ^^^ epTerm keys (newEpTarget m p)
      ^^^ keys.side_to_move := by
  obtain ⟨hking, hcap, hepf, hprn, hconf⟩ := hcok
  have hdp : destPiece m p = p := by simp [destPiece, hprn]
  have hnotpawn : (p.piece_type = PieceType.Pawn) = False := by simp [hking]
  have hsrcD : s.board.getD m.from_sq none = some p := hsrc
  rcases hconf with ⟨hw, hf4, hside⟩ | ⟨hw, hf60, hside⟩
  · rcases hside with ⟨hto6, h5, h6, h7⟩ | ⟨hto2, h3, h2, h1, h0⟩
    · have hcrf : castleRookFrom m.to_sq p.color = 7 := by rw [hto6, hw]; rfl
      have hcrt : castleRookTo m.to_sq p.color = 5 := by rw [hto6, hw]; rfl
      have hbne : m.to_sq ≠ 7 := by rw [hto6]; decide
      have hane : m.from_sq ≠ 7 := by rw [hf4]; decide
      have hrookB : ((s.board.set m.to_sq (some p)).set m.from_sq none).getD 7 none
          = some ⟨.Rook, .White⟩ := by
        rw [listGetD_set_ne _ _ hane, listGetD_set_ne _ _ hbne]; exact h7
      simp only [makeMove, hsrc, hsrcD, Option.bind_eq_bind, Option.some_bind, hcap, hcastle,
        hnotpawn, if_false, if_true, hdp, hcrf, hcrt, setPiece, getPiece, hrookB,
        ite_some, ite_pair, ite_update_halfmove, Option.some.injEq] at hmk
      subst hmk
      rw [hcrf, hcrt, hw]
      exact ⟨rfl, rfl, rfl, rfl, rfl, rfl, rfl, rfl, rfl, rfl⟩
    · have hcrf : castleRookFrom m.to_sq p.color = 0 := by rw [hto2, hw]; rfl
      have hcrt : castleRookTo m.to_sq p.color = 3 := by rw [hto2, hw]; rfl
      have hbne : m.to_sq ≠ 0 := by rw [hto2]; decide
      have hane : m.from_sq ≠ 0 := by rw [hf4]; decide
      have hrookB : ((s.board.set m.to_sq (some p)).set m.from_sq none).getD 0 none
          = some ⟨.Rook, .White⟩ := by
        rw [listGetD_set_ne _ _ hane, listGetD_set_ne _ _ hbne]; exact h0
      simp only [makeMove, hsrc, hsrcD, Option.bind_eq_bind, Option.some_bind, hcap, hcastle,
        hnotpawn, if_false, if_true, hdp, hcrf, hcrt, setPiece, getPiece, hrookB,
        ite_some, ite_pair, ite_update_halfmove, Option.some.injEq] at hmk
      subst hmk
      rw [hcrf, hcrt, hw]
      exact ⟨rfl, rfl, rfl, rfl, rfl, rfl, rfl, rfl, rfl, rfl⟩
  · rcases hside with ⟨hto62, h61, h62, h63⟩ | ⟨hto58, h59, h58, h57, h56⟩
    · have hcrf : castleRookFrom m.to_sq p.color = 63 := by rw [hto62, hw]; rfl
      have hcrt : castleRookTo m.to_sq p.color = 61 := by rw [hto62, hw]; rfl
      have hbne : m.to_sq ≠ 63 := by rw [hto62]; decide
      have hane : m.from_sq ≠ 63 := by rw [hf60]; decide
      have hrookB : ((s.board.set m.to_sq (some p)).set m.from_sq none).getD 63 none
          = some ⟨.Rook, .Black⟩ := by
        rw [listGetD_set_ne _ _ hane, listGetD_set_ne _ _ hbne]; exact h63
      simp only [makeMove, hsrc, hsrcD, Option.bind_eq_bind, Option.some_bind, hcap, hcastle,
        hnotpawn, if_false, if_true, hdp, hcrf, hcrt, setPiece, getPiece, hrookB,
        ite_some, ite_pair, ite_update_halfmove, Option.some.injEq] at hmk
      subst hmk
      rw [hcrf, hcrt, hw]
      exact ⟨rfl, rfl, rfl, rfl, rfl, rfl, rfl, rfl, rfl, rfl⟩
    · have hcrf : castleRookFrom m.to_sq p.color = 56 := by rw [hto58, hw]; rfl
      have hcrt : castleRookTo m.to_sq p.color = 59 := by rw [hto58, hw]; rfl
      have hbne : m.to_sq ≠ 56 := by rw [hto58]; decide
      have hane : m.from_sq ≠ 56 := by rw [hf60]; decide
      have hrookB : ((s.board.set m.to_sq (some p)).set m.from_sq none).getD 56 none
          = some ⟨.Rook, .Black⟩ := by
        rw [listGetD_set_ne _ _ hane, listGetD_set_ne _ _ hbne]; exact h56
      simp only [makeMove, hsrc, hsrcD, Option.bind_eq_bind, Option.some_bind, hcap, hcastle,
        hnotpawn, if_false, if_true, hdp, hcrf, hcrt, setPiece, getPiece, hrookB,
        ite_some, ite_pair, ite_update_halfmove, Option.some.injEq] at hmk
      subst hmk
      rw [hcrf, hcrt, hw]
      exact ⟨rfl, rfl, rfl, rfl, rfl, rfl, rfl, rfl, rfl, rfl⟩
end Chess

namespace Chess
/-- Every pseudo-legal move `generate_moves` emits for the side to move
satisfies the `MoveOk` contract `make_move`/`undo_move` rely on. -/
theorem generateMoves_moveOk (fuel : Nat) (s : GameState) (c : Color) (m : Move)
    (hct : c = s.turn) (hepi : EPInv s) (hm : m ∈ generateMoves fuel s c) :
    ∃ p, MoveOk s m p := by
  rw [generateMoves] at hm
  obtain ⟨sq, hsqr, hmem⟩ := List.mem_flatMap.mp hm
  have hsq : sq < 64 := List.mem_range.mp hsqr
  clear hm hsqr
  cases hg : getPiece s sq with
  | none => simp [hg] at hmem
  | some piece =>
    simp only [hg] at hmem
    by_cases hpc : piece.color = c
    · rw [if_pos hpc] at hmem
      obtain ⟨ptv, cv⟩ := piece
      refine ⟨⟨ptv, cv⟩, ?_⟩
      cases ptv with
      | Pawn =>
        simp only [generatePieceMoves, generatePieceMovesA] at hmem
        obtain ⟨h1, h2, h3, h4, hdbl, hcap⟩ :=
          generatePawnMoves_ok s sq cv m (hpc.trans hct) hepi hmem hsq
        rcases hcap with ⟨hepm, hplain⟩ | ⟨hepm, hepok⟩
        · exact { src := by rw [h1]; exact hg, from_lt := by rw [h1]; exact hsq,
                  to_lt := h2, ne := fun h => h3 (h.symm.trans h1), turn_eq := hpc.trans hct,
                  promo_pawn := fun _ => rfl,
                  cap_ok := by rw [if_neg (by simp [hepm])]; exact hplain,
                  castle_ok := fun hcs => by
                    rw [h4] at hcs; exact absurd hcs (by decide),
                  dbl_ok := hdbl }
        · exact { src := by rw [h1]; exact hg, from_lt := by rw [h1]; exact hsq,
                  to_lt := h2, ne := fun h => h3 (h.symm.trans h1), turn_eq := hpc.trans hct,
                  promo_pawn := fun _ => rfl,
                  cap_ok := by rw [if_pos hepm]; exact hepok,
                  castle_ok := fun hcs => by
                    rw [h4] at hcs; exact absurd hcs (by decide),
                  dbl_ok := hdbl }
      | Knight =>
        simp only [generatePieceMoves, generatePieceMovesA] at hmem
        obtain ⟨h1, h2, h3, hpromo, hcast, hepm, hplain⟩ :=
          generateKnightMoves_ok s sq cv m hmem
        exact { src := by rw [h1]; exact hg, from_lt := by rw [h1]; exact hsq,
                to_lt := h2, ne := fun h => h3 (h.symm.trans h1), turn_eq := hpc.trans hct,
                promo_pawn := fun hp => by
                  rw [hpromo] at hp; exact absurd hp (by decide),
                cap_ok := by rw [if_neg (by simp [hepm])]; exact hplain,
                castle_ok := fun hcs => by
                  rw [hcast] at hcs; exact absurd hcs (by decide),
                dbl_ok := fun hpp _ => PieceType.noConfusion hpp }
      | Bishop =>
        simp only [generatePieceMoves, generatePieceMovesA] at hmem
        obtain ⟨h1, h2, h3, hpromo, hcast, hepm, hplain⟩ :=
          generateSlidingMoves_ok s sq cv [-9, -7, 7, 9] .Bishop (by decide) m hmem
        exact { src := by rw [h1]; exact hg, from_lt := by rw [h1]; exact hsq,
                to_lt := h2, ne := fun h => h3 (h.symm.trans h1), turn_eq := hpc.trans hct,
                promo_pawn := fun hp => by
                  rw [hpromo] at hp; exact absurd hp (by decide),
                cap_ok := by rw [if_neg (by simp [hepm])]; exact hplain,
                castle_ok := fun hcs => by
                  rw [hcast] at hcs; exact absurd hcs (by decide),
                dbl_ok := fun hpp _ => PieceType.noConfusion hpp }
      | Rook =>
        simp only [generatePieceMoves, generatePieceMovesA] at hmem
        obtain ⟨h1, h2, h3, hpromo, hcast, hepm, hplain⟩ :=
          generateSlidingMoves_ok s sq cv [-8, -1, 1, 8] .Rook (by decide) m hmem
        exact { src := by rw [h1]; exact hg, from_lt := by rw [h1]; exact hsq,
                to_lt := h2, ne := fun h => h3 (h.symm.trans h1), turn_eq := hpc.trans hct,
                promo_pawn := fun hp => by
                  rw [hpromo] at hp; exact absurd hp (by decide),
                cap_ok := by rw [if_neg (by simp [hepm])]; exact hplain,
                castle_ok := fun hcs => by
                  rw [hcast] at hcs; exact absurd hcs (by decide),
                dbl_ok := fun hpp _ => PieceType.noConfusion hpp }
      | Queen =>
        simp only [generatePieceMoves, generatePieceMovesA] at hmem
        obtain ⟨h1, h2, h3, hpromo, hcast, hepm, hplain⟩ :=
          generateSlidingMoves_ok s sq cv [-9, -8, -7, -1, 1, 7, 8, 9] .Queen
            (by decide) m hmem
        exact { src := by rw [h1]; exact hg, from_lt := by rw [h1]; exact hsq,
                to_lt := h2, ne := fun h => h3 (h.symm.trans h1), turn_eq := hpc.trans hct,
                promo_pawn := fun hp => by
                  rw [hpromo] at hp; exact absurd hp (by decide),
                cap_ok := by rw [if_neg (by simp [hepm])]; exact hplain,
                castle_ok := fun hcs => by
                  rw [hcast] at hcs; exact absurd hcs (by decide),
                dbl_ok := fun hpp _ => PieceType.noConfusion hpp }
      | King =>
        simp only [generatePieceMoves, generatePieceMovesA] at hmem
        rcases generateKingMovesA_ok _ s sq cv m hmem with
          ⟨h1, h2, h3, hpromo, hcast, hepm, hplain⟩ | ⟨h1, h2, h3, hcast, hdest, hco⟩
        · exact { src := by rw [h1]; exact hg, from_lt := by rw [h1]; exact hsq,
                  to_lt := h2, ne := fun h => h3 (h.symm.trans h1), turn_eq := hpc.trans hct,
                  promo_pawn := fun hp => by
                    rw [hpromo] at hp; exact absurd hp (by decide),
                  cap_ok := by rw [if_neg (by simp [hepm])]; exact hplain,
                  castle_ok := fun hcs => by
                    rw [hcast] at hcs; exact absurd hcs (by decide),
                  dbl_ok := fun hpp _ => PieceType.noConfusion hpp }
        · exact { src := by rw [h1]; exact hg, from_lt := by rw [h1]; exact hsq,
                  to_lt := h2, ne := fun h => h3 (h.symm.trans h1), turn_eq := hpc.trans hct,
                  promo_pawn := fun hp => by
                    rw [hco.2.2.2.1] at hp; exact absurd hp (by decide),
                  cap_ok := by
                    rw [if_neg (by simp [hco.2.2.1])]
                    simp only [PlainCapOk, hco.2.1]
                    exact hdest,
                  castle_ok := fun _ => hco,
                  dbl_ok := fun hpp _ => PieceType.noConfusion hpp }
    · rw [if_neg hpc] at hmem
      simp at hmem
end Chess

namespace Chess
/-- `make_move` keeps the basic well-formedness: 64 squares, `u32` counters
in range. -/
theorem makeMove_WF (keys : ZKeys) (s : GameState) (m : Move) (p : Piece)
    (hok : MoveOk s m p) (hwf : WF s) (s' : GameState)
    (hmk : makeMove keys m s = some s') : WF s' := by
  obtain ⟨hsrc, hfrom, hto, hne, hturn, hpro, hcapok, hcastleok, hdblok⟩ := hok
  obtain ⟨hlen, hfm, hhm⟩ := hwf
  by_cases hc : m.is_castling = true
  · obtain ⟨hb, _, _, _, hhm', hfm', _⟩ :=
      makeMove_castle_fields keys s m p hsrc (hcastleok hc) hc s' hmk
    refine ⟨by rw [hb]; simpa using hlen, ?_, by rw [hhm']; omega⟩
    rw [hfm', newFullmove]
    split <;> omega
  · have hc' : m.is_castling = false := by simpa using hc
    by_cases he : m.is_en_passant = true
    · rw [if_pos (by simp [he])] at hcapok
      obtain ⟨hb, _, _, _, hhm', hfm', _⟩ :=
        makeMove_ep_fields keys s m p hsrc hcapok hc' he s' hmk
      refine ⟨by rw [hb]; simpa using hlen, ?_, by rw [hhm']; omega⟩
      rw [hfm', newFullmove]
      split <;> omega
    · have he' : m.is_en_passant = false := by simpa using he
      obtain ⟨hb, _, _, _, hhm', hfm', _⟩ :=
        makeMove_plain_fields keys s m p hsrc hc' he' s' hmk
      refine ⟨by rw [hb]; simpa using hlen, ?_, by rw [hhm']; split <;> omega⟩
      rw [hfm', newFullmove]
      split <;> omega
end Chess

namespace Chess
/-- `make_move` maintains the en-passant consistency invariant. -/
theorem makeMove_EPInv (keys : ZKeys) (s : GameState) (m : Move) (p : Piece)
    (hok : MoveOk s m p) (hwf : WF s) (s' : GameState)
    (hmk : makeMove keys m s = some s') : EPInv s' := by
  obtain ⟨hsrc, hfrom, hto, hne, hturn, hpro, hcapok, hcastleok, hdblok⟩ := hok
  obtain ⟨hlen, hfm, hhm⟩ := hwf
  intro t hept'
  by_cases hc : m.is_castling = true
  · obtain ⟨_, _, hept, _⟩ :=
      makeMove_castle_fields keys s m p hsrc (hcastleok hc) hc s' hmk
    rw [hept, newEpTarget] at hept'
    rw [if_neg (fun hcond => by
      have := (hcastleok hc).1
      rw [this] at hcond
      exact PieceType.noConfusion hcond.1)] at hept'
    cases hept'
  · have hc' : m.is_castling = false := by simpa using hc
    by_cases he : m.is_en_passant = true
    · rw [if_pos (by simp [he])] at hcapok
      obtain ⟨_, _, hept, _⟩ :=
        makeMove_ep_fields keys s m p hsrc hcapok hc' he s' hmk
      rw [hept, newEpTarget] at hept'
      rw [if_neg (fun hcond => by
        obtain ⟨_, hcapn, _⟩ := hdblok hcond.1 hcond.2
        have hcs := hcapok.1
        rw [hcapn] at hcs
        exact Option.noConfusion hcs)] at hept'
      cases hept'
    · have he' : m.is_en_passant = false := by simpa using he
      obtain ⟨hb, htn, hept, _⟩ :=
        makeMove_plain_fields keys s m p hsrc hc' he' s' hmk
      rw [hept, newEpTarget] at hept'
      by_cases hcond : p.piece_type = .Pawn ∧
          ((m.to_sq : Int) - (m.from_sq : Int)).natAbs = 16
      · rw [if_pos hcond] at hept'
        have htval : (m.from_sq + m.to_sq) / 2 = t := Option.some_inj.mp hept'
        obtain ⟨hcrossed, hcapn, hprn, _, hwimp, hbimp⟩ := hdblok hcond.1 hcond.2
        have hdp : destPiece m p = p := by simp [destPiece, hprn]
        have hgt : getPiece s' t = getPiece s t := by
          rw [getPiece, hb, listGetD_set_ne, listGetD_set_ne]
          · rfl
          · cases hcp : p.color
            · obtain ⟨h16', _⟩ := hwimp hcp; omega
            · obtain ⟨h16', _⟩ := hbimp hcp; omega
          · cases hcp : p.color
            · obtain ⟨h16', _⟩ := hwimp hcp; omega
            · obtain ⟨h16', _⟩ := hbimp hcp; omega
        have hgto : getPiece s' m.to_sq = some p := by
          rw [getPiece, hb, listGetD_set_ne _ _ hne,
            listGetD_set_self _ _ _ (by omega), hdp]
        cases hcp : p.color with
        | White =>
          obtain ⟨h16', hrk⟩ := hwimp hcp
          have hpw : p = ⟨.Pawn, .White⟩ := by
            cases p; simp_all
          refine ⟨fun hw => ?_, fun _ => ?_⟩
          · rw [htn, hcp] at hw
            exact absurd hw (by decide)
          · refine ⟨by omega, by omega, ?_, ?_⟩
            · rw [hgt, ← htval]
              exact hcrossed
            · rw [show t + 8 = m.to_sq by omega, hgto, hpw]
        | Black =>
          obtain ⟨h16', hrk⟩ := hbimp hcp
          have hpb : p = ⟨.Pawn, .Black⟩ := by
            cases p; simp_all
          refine ⟨fun _ => ?_, fun hbt => ?_⟩
          · refine ⟨by omega, by omega, ?_, ?_⟩
            · rw [hgt, ← htval]
              exact hcrossed
            · rw [show t - 8 = m.to_sq by omega, hgto, hpb]
          · rw [htn, hcp] at hbt
            exact absurd hbt (by decide)
      · rw [if_neg hcond] at hept'
        cases hept'
end Chess

namespace Chess
/-- Every reachable position is well-formed and en-passant-consistent. -/
theorem Reachable_inv (keys : ZKeys) (fuel : Nat) (s : GameState)
    (hr : Reachable keys fuel s) : WF s ∧ EPInv s := by
  induction hr with
  | init =>
    refine ⟨⟨by simp [boardNew, GameState.new], by norm_num [boardNew, GameState.new],
      by norm_num [boardNew, GameState.new]⟩, ?_⟩
    intro t h
    simp [boardNew, GameState.new] at h
  | step hr hlm hmem hmk ih =>
    obtain ⟨hwf, hepi⟩ := ih
    rw [getLegalMoves] at hlm
    have hgen := ((legalFilter_mem keys fuel _ _ _ _ hlm _).mp hmem).1
    obtain ⟨p, hok⟩ := generateMoves_moveOk fuel _ _ _ rfl hepi hgen
    exact ⟨makeMove_WF keys _ _ p hok hwf _ hmk, makeMove_EPInv keys _ _ p hok hwf _ hmk⟩
end Chess

namespace Chess
/-- C1: for every reachable position and every legal move `m` of the side to
move, `make_move(m)` succeeds and the following `undo_move()` returns `m`
and restores the entire position — board array, turn, castling rights,
en-passant target, halfmove clock, fullmove number, zobrist hash and the
three history stacks — bit-exactly to its pre-make value. -/
theorem make_undo_restores (keys : ZKeys) (fuel : Nat) (s : GameState)
    (hr : Reachable keys fuel s) (ms : List Move) (m : Move)
    (hms : getLegalMoves keys fuel s s.turn = some ms) (hm : m ∈ ms) :
    ∃ s', makeMove keys m s = some s' ∧ undoMove s' = some (some m, s) := by
  obtain ⟨hwf, hepi⟩ := Reachable_inv keys fuel s hr
  rw [getLegalMoves] at hms
  have hgen := ((legalFilter_mem keys fuel _ _ _ _ hms _).mp hm).1
  obtain ⟨p, hok⟩ := generateMoves_moveOk fuel _ _ _ rfl hepi hgen
  exact make_undo keys s m p hok hwf

/-- C1 witness: the round trip at the initial position on the double push
a2a4. -/
theorem make_undo_restores_witness :
    Reachable zeroKeys 2 (boardNew zeroKeys) ∧
    getLegalMoves zeroKeys 2 (boardNew zeroKeys) (boardNew zeroKeys).turn
      = some initWhiteLegal ∧
    Move.new 8 24 .Pawn ∈ initWhiteLegal ∧
    ∃ s', makeMove zeroKeys (Move.new 8 24 .Pawn) (boardNew zeroKeys) = some s' ∧
      undoMove s' = some (some (Move.new 8 24 .Pawn), boardNew zeroKeys) :=
  ⟨Reachable.init, by decide, by decide,
    make_undo_restores zeroKeys 2 (boardNew zeroKeys) Reachable.init initWhiteLegal
      (Move.new 8 24 .Pawn) (by decide) (by decide)⟩
end Chess

namespace Chess
theorem boardHash_congr (keys : ZKeys) (a b : GameState) (h : a.board = b.board) :
    boardHash keys a = boardHash keys b := by
  unfold boardHash getPiece
  rw [h]
end Chess

namespace Chess
/-- `boardHash` across two writes to distinct squares. -/
theorem boardHash_set2 (keys : ZKeys) (s : GameState) (a b : Nat)
    (va vb : Option Piece) (hlen : s.board.length = 64)
    (ha : a < 64) (hb : b < 64) (hab : a ≠ b) :
    boardHash keys (setPiece (setPiece s a va) b vb) =
      boardHash keys s ^^^ optKey keys a (getPiece s a) ^^^ optKey keys a va
        ^^^ optKey keys b (getPiece s b) ^^^ optKey keys b vb := by
  rw [boardHash_setPiece _ _ b vb (by rw [setPiece_board_length]; exact hlen) hb,
    boardHash_setPiece _ _ a va hlen ha, getPiece_setPiece_ne _ _ hab]

/-- `boardHash` across three writes to distinct squares. -/
theorem boardHash_set3 (keys : ZKeys) (s : GameState) (a b c : Nat)
    (va vb vc : Option Piece) (hlen : s.board.length = 64)
    (ha : a < 64) (hb : b < 64) (hc : c < 64)
    (hab : a ≠ b) (hac : a ≠ c) (hbc : b ≠ c) :
    boardHash keys (setPiece (setPiece (setPiece s a va) b vb) c vc) =
      boardHash keys s ^^^ optKey keys a (getPiece s a) ^^^ optKey keys a va
        ^^^ optKey keys b (getPiece s b) ^^^ optKey keys b vb
        ^^^ optKey keys c (getPiece s c) ^^^ optKey keys c vc := by
  rw [boardHash_setPiece _ _ c vc
      (by rw [setPiece_board_length, setPiece_board_length]; exact hlen) hc,
    getPiece_setPiece_ne _ _ hbc, getPiece_setPiece_ne _ _ hac,
    boardHash_set2 keys s a b va vb hlen ha hb hab]

/-- `boardHash` across four writes to distinct squares. -/
theorem boardHash_set4 (keys : ZKeys) (s : GameState) (a b c d : Nat)
    (va vb vc vd : Option Piece) (hlen : s.board.length = 64)
    (ha : a < 64) (hb : b < 64) (hc : c < 64) (hd : d < 64)
    (hab : a ≠ b) (hac : a ≠ c) (had : a ≠ d) (hbc : b ≠ c) (hbd : b ≠ d)
    (hcd : c ≠ d) :
    boardHash keys (setPiece (setPiece (setPiece (setPiece s a va) b vb) c vc) d vd) =
      boardHash keys s ^^^ optKey keys a (getPiece s a) ^^^ optKey keys a va
        ^^^ optKey keys b (getPiece s b) ^^^ optKey keys b vb
        ^^^ optKey keys c (getPiece s c) ^^^ optKey keys c vc
        ^^^ optKey keys d (getPiece s d) ^^^ optKey keys d vd := by
  rw [boardHash_setPiece _ _ d vd
      (by rw [setPiece_board_length, setPiece_board_length, setPiece_board_length]
          exact hlen) hd,
    getPiece_setPiece_ne _ _ hcd, getPiece_setPiece_ne _ _ hbd,
    getPiece_setPiece_ne _ _ had,
    boardHash_set3 keys s a b c va vb vc hlen ha hb hc hab hac hbc]
end Chess

namespace Chess
/-- `make_move` keeps the incrementally maintained hash equal to the
from-scratch Zobrist recomputation (spec section 4.2). -/
theorem makeMove_hash (keys : ZKeys) (s : GameState) (m : Move) (p : Piece)
    (hok : MoveOk s m p) (hwf : WF s)
    (hh : s.zobrist_hash = computeHash keys s) (s' : GameState)
    (hmk : makeMove keys m s = some s') :
    s'.zobrist_hash = computeHash keys s' := by
  obtain ⟨hsrc, hfrom, hto, hne, hturn, hpro, hcapok, hcastleok, hdblok⟩ := hok
  obtain ⟨hlen, hfm, hhm⟩ := hwf
  by_cases hc : m.is_castling = true
  · obtain ⟨hking, hcapn, hepf, hprn, hconf⟩ := hcastleok hc
    obtain ⟨hb, htn, hept, hcr, _, _, _, _, _, hz⟩ :=
      makeMove_castle_fields keys s m p hsrc (hcastleok hc) hc s' hmk
    rcases hconf with ⟨hw, hf, ⟨htos, hx1, hx2, hx3⟩ | ⟨htos, hx1, hx2, hx3, hx4⟩⟩ |
      ⟨hw, hf, ⟨htos, hx1, hx2, hx3⟩ | ⟨htos, hx1, hx2, hx3, hx4⟩⟩
    · -- White kingside: from 4, to 6, rook 7 → 5
      have hcrf : castleRookFrom m.to_sq p.color = 7 := by rw [htos, hw]; rfl
      have hcrt : castleRookTo m.to_sq p.color = 5 := by rw [htos, hw]; rfl
      have hbeq : s'.board = (setPiece (setPiece (setPiece (setPiece s m.to_sq (some p))
          m.from_sq none) (castleRookTo m.to_sq p.color)
          (some (⟨.Rook, p.color⟩ : Piece))) (castleRookFrom m.to_sq p.color) none).board :=
        hb
      have hbh := boardHash_congr keys s' _ hbeq
      rw [hcrf, hcrt, htos, hf, hw] at hbh hz
      rw [boardHash_set4 keys s 6 4 5 7 _ _ _ _ hlen (by decide) (by decide) (by decide)
        (by decide) (by decide) (by decide) (by decide) (by decide) (by decide)
        (by decide)] at hbh
      rw [hf] at hsrc
      rw [hz, hh]
      simp only [computeHash]
      rw [hbh, hcr, hept, htn, hsrc, hx1, hx2, hx3, hw]
      cases hst : s.turn <;> rw [hst] at hturn <;> rw [hw] at hturn <;>
        first
          | (exact absurd hturn (by decide))
          | simp [optKey, Color.opposite, Nat.xor_assoc, Nat.xor_comm, xorLeftComm,
              xorCancelLeft, Nat.xor_self, Nat.xor_zero, Nat.zero_xor]
    · -- White queenside: from 4, to 2, rook 0 → 3
      have hcrf : castleRookFrom m.to_sq p.color = 0 := by rw [htos, hw]; rfl
      have hcrt : castleRookTo m.to_sq p.color = 3 := by rw [htos, hw]; rfl
      have hbeq : s'.board = (setPiece (setPiece (setPiece (setPiece s m.to_sq (some p))
          m.from_sq none) (castleRookTo m.to_sq p.color)
          (some (⟨.Rook, p.color⟩ : Piece))) (castleRookFrom m.to_sq p.color) none).board :=
        hb
      have hbh := boardHash_congr keys s' _ hbeq
      rw [hcrf, hcrt, htos, hf, hw] at hbh hz
      rw [boardHash_set4 keys s 2 4 3 0 _ _ _ _ hlen (by decide) (by decide) (by decide)
        (by decide) (by decide) (by decide) (by decide) (by decide) (by decide)
        (by decide)] at hbh
      rw [hf] at hsrc
      rw [hz, hh]
      simp only [computeHash]
      rw [hbh, hcr, hept, htn, hsrc, hx1, hx2, hx4, hw]
      cases hst : s.turn <;> rw [hst] at hturn <;> rw [hw] at hturn <;>
        first
          | (exact absurd hturn (by decide))
          | simp [optKey, Color.opposite, Nat.xor_assoc, Nat.xor_comm, xorLeftComm,
              xorCancelLeft, Nat.xor_self, Nat.xor_zero, Nat.zero_xor]
    · -- Black kingside: from 60, to 62, rook 63 → 61
      have hcrf : castleRookFrom m.to_sq p.color = 63 := by rw [htos, hw]; rfl
      have hcrt : castleRookTo m.to_sq p.color = 61 := by rw [htos, hw]; rfl
      have hbeq : s'.board = (setPiece (setPiece (setPiece (setPiece s m.to_sq (some p))
          m.from_sq none) (castleRookTo m.to_sq p.color)
          (some (⟨.Rook, p.color⟩ : Piece))) (castleRookFrom m.to_sq p.color) none).board :=
        hb
      have hbh := boardHash_congr keys s' _ hbeq
      rw [hcrf, hcrt, htos, hf, hw] at hbh hz
      rw [boardHash_set4 keys s 62 60 61 63 _ _ _ _ hlen (by decide) (by decide) (by decide)
        (by decide) (by decide) (by decide) (by decide) (by decide) (by decide)
        (by decide)] at hbh
      rw [hf] at hsrc
      rw [hz, hh]
      simp only [computeHash]
      rw [hbh, hcr, hept, htn, hsrc, hx1, hx2, hx3, hw]
      cases hst : s.turn <;> rw [hst] at hturn <;> rw [hw] at hturn <;>
        first
          | (exact absurd hturn (by decide))
          | simp [optKey, Color.opposite, Nat.xor_assoc, Nat.xor_comm, xorLeftComm,
              xorCancelLeft, Nat.xor_self, Nat.xor_zero, Nat.zero_xor]
    · -- Black queenside: from 60, to 58, rook 56 → 59
      have hcrf : castleRookFrom m.to_sq p.color = 56 := by rw [htos, hw]; rfl
      have hcrt : castleRookTo m.to_sq p.color = 59 := by rw [htos, hw]; rfl
      have hbeq : s'.board = (setPiece (setPiece (setPiece (setPiece s m.to_sq (some p))
          m.from_sq none) (castleRookTo m.to_sq p.color)
          (some (⟨.Rook, p.color⟩ : Piece))) (castleRookFrom m.to_sq p.color) none).board :=
        hb
      have hbh := boardHash_congr keys s' _ hbeq
      rw [hcrf, hcrt, htos, hf, hw] at hbh hz
      rw [boardHash_set4 keys s 58 60 59 56 _ _ _ _ hlen (by decide) (by decide) (by decide)
        (by decide) (by decide) (by decide) (by decide) (by decide) (by decide)
        (by decide)] at hbh
      rw [hf] at hsrc
      rw [hz, hh]
      simp only [computeHash]
      rw [hbh, hcr, hept, htn, hsrc, hx1, hx2, hx4, hw]
      cases hst : s.turn <;> rw [hst] at hturn <;> rw [hw] at hturn <;>
        first
          | (exact absurd hturn (by decide))
          | simp [optKey, Color.opposite, Nat.xor_assoc, Nat.xor_comm, xorLeftComm,
              xorCancelLeft, Nat.xor_self, Nat.xor_zero, Nat.zero_xor]
  · have hc' : m.is_castling = false := by simpa using hc
    by_cases he : m.is_en_passant = true
    · rw [if_pos (by simp [he])] at hcapok
      obtain ⟨hcap1, hcap2, hcap3, hcap4, hcap5, hcap6, hcap7⟩ := hcapok
      obtain ⟨hb, htn, hept, hcr, _, _, _, _, _, hz⟩ :=
        makeMove_ep_fields keys s m p hsrc ⟨hcap1, hcap2, hcap3, hcap4, hcap5, hcap6, hcap7⟩
          hc' he s' hmk
      have hbeq : s'.board = (setPiece (setPiece (setPiece s (epCapSq m p) none) m.to_sq
          (some (destPiece m p))) m.from_sq none).board := hb
      have hbh := boardHash_congr keys s' _ hbeq
      rw [boardHash_set3 keys s (epCapSq m p) m.to_sq m.from_sq _ _ _ hlen hcap3 hto hfrom
        hcap5 hcap4 (fun h => hne h.symm)] at hbh
      rw [hz, hh]
      simp only [computeHash]
      rw [hbh, hcr, hept, htn, hsrc, hcap6, hcap7]
      cases hst : s.turn <;> rw [hst] at hturn <;> rw [hturn] <;>
        simp [optKey, Color.opposite, Nat.xor_assoc, Nat.xor_comm, xorLeftComm,
          xorCancelLeft, Nat.xor_self, Nat.xor_zero, Nat.zero_xor]
    · have he' : m.is_en_passant = false := by simpa using he
      rw [if_neg (by simp [he'])] at hcapok
      obtain ⟨hb, htn, hept, hcr, _, _, _, _, _, hz⟩ :=
        makeMove_plain_fields keys s m p hsrc hc' he' s' hmk
      have hbeq : s'.board = (setPiece (setPiece s m.to_sq (some (destPiece m p)))
          m.from_sq none).board := hb
      have hbh := boardHash_congr keys s' _ hbeq
      rw [boardHash_set2 keys s m.to_sq m.from_sq _ none hlen hto hfrom
        (fun h => hne h.symm)] at hbh
      cases hcap : m.captured with
      | none =>
        simp only [PlainCapOk, hcap] at hcapok
        rw [hz, hh]
        simp only [computeHash, hcap]
        rw [hbh, hcr, hept, htn, hsrc, hcapok]
        cases hst : s.turn <;> rw [hst] at hturn <;> rw [hturn] <;>
          simp [optKey, Color.opposite, Nat.xor_assoc, Nat.xor_comm, xorLeftComm,
            xorCancelLeft, Nat.xor_self, Nat.xor_zero, Nat.zero_xor]
      | some ct =>
        simp only [PlainCapOk, hcap] at hcapok
        rw [hz, hh]
        simp only [computeHash, hcap]
        rw [hbh, hcr, hept, htn, hsrc, hcapok]
        cases hst : s.turn <;> rw [hst] at hturn <;> rw [hturn] <;>
          simp [optKey, Color.opposite, Nat.xor_assoc, Nat.xor_comm, xorLeftComm,
            xorCancelLeft, Nat.xor_self, Nat.xor_zero, Nat.zero_xor]
end Chess

namespace Chess
/-- C2: for every position reachable from the initial position by legal
`make_move` calls, the incrementally maintained `zobrist_hash` equals the
from-scratch Zobrist recomputation over the other fields (pieces on squares,
castling rights, en-passant file, side to move). -/
theorem reachable_hash_consistent (keys : ZKeys) (fuel : Nat) (s : GameState)
    (hr : Reachable keys fuel s) : s.zobrist_hash = computeHash keys s := by
  induction hr with
  | init => rfl
  | step hr hlm hmem hmk ih =>
    obtain ⟨hwf, hepi⟩ := Reachable_inv keys fuel _ hr
    rw [getLegalMoves] at hlm
    have hgen := ((legalFilter_mem keys fuel _ _ _ _ hlm _).mp hmem).1
    obtain ⟨p, hok⟩ := generateMoves_moveOk fuel _ _ _ rfl hepi hgen
    exact makeMove_hash keys _ _ p hok hwf ih _ hmk

/-- C2 witness: the invariant instantiated at the initial position. -/
theorem reachable_hash_consistent_witness :
    Reachable zeroKeys 2 (boardNew zeroKeys) ∧
    (boardNew zeroKeys).zobrist_hash = computeHash zeroKeys (boardNew zeroKeys) :=
  ⟨Reachable.init, reachable_hash_consistent zeroKeys 2 (boardNew zeroKeys) Reachable.init⟩
end Chess
